import Mathlib

/-!
Flow Finance: the store and the views that read it

A shallow embedding of `app/src/store/event-handlers.js` (the reducer that keeps the
super-token registry and the flow ledger of the agent up to date), of the hook
`app/src/hooks/useSuperTokenItems.js` and of the validation and the flow query of
`app/src/components/SidePanels/UpdateFlow/index.js`, together with the properties of
them that the specification states.

Modelling conventions

* JavaScript numbers, numeric strings and big numbers are `Int`; a property that may be
  `undefined` is an `Option`.
* An array of flows is a `List (Option Flow)`: `none` is an empty slot, which is what
  `delete xs[i]` leaves behind and what the array spread reads back as `undefined`.
* An `async` function is a value of `Eff`: the outcome of the promise (`Except`) and the
  list of external calls the function issued. Which of two rejected promises of a
  `Promise.all` settles first depends on the timing of the external answers; it is the
  parameter `timing : Timing` of the asynchronous functions.
* The helpers imported from `./helpers` and `../helpers/web3-helpers` are not part of the
  sources at hand; the handlers take them as the parameter `H : Helpers`, the views take
  theirs as the parameter `V : ViewHelpers`.
-/

namespace FlowFinance

/-! ## Data model -/

/-- An Ethereum address, as the string the event feed delivers. -/
abbrev Address := String

/-- A rejected promise or a thrown exception. -/
inductive Error where
  | rejected (reason : String)
  | typeError
deriving DecidableEq, Repr

/-- The entry of the flow ledger. The first seven fields are the ones `updateFlows`
writes; `isCancelled` is read by the side panel and is never written by the store, it is
`none` when the property is absent. -/
structure Flow where
  isIncoming : Bool
  entity : Address
  superTokenAddress : Address
  accumulatedAmount : Int
  creationTimestamp : Int
  lastTimestamp : Int
  flowRate : Option Int
  isCancelled : Option Bool := none
deriving DecidableEq, Repr

/-- The object `newSuperToken` resolves to. -/
structure SuperTokenData where
  decimals : Int
  name : String
  symbol : String
  underlyingToken : Address
  netFlow : Int
  balance : Int
deriving DecidableEq, Repr

/-- The entry of the super-token registry. -/
structure SuperToken extends SuperTokenData where
  address : Address
  lastUpdateTimestamp : Int
deriving DecidableEq, Repr

/-- The state of the reducer. `others` stands for every property of the state object
besides the three the handlers read; the object spread carries it along. -/
structure State where
  agentAddress : Address
  superTokens : List SuperToken
  flows : List (Option Flow)
  others : List (String × String)
deriving DecidableEq, Repr

/-- The `returnValues` of a `FlowUpdated` event. -/
structure FlowUpdated where
  sender : Address
  receiver : Address
  token : Address
  flowRate : Option Int
  totalSenderFlowRate : Option Int
  totalReceiverFlowRate : Option Int
deriving DecidableEq, Repr

/-- The `returnValues` of a vault event. -/
structure VaultEvent where
  token : Address
deriving DecidableEq, Repr

/-! ## External collaborators -/

/-- An external call issued by a handler. -/
inductive Call where
  | external (tokenAddress : Address)
  | name
  | decimals
  | symbol
  | getUnderlyingToken
  | balanceOf (holder : Address)
  | getFlow (token sender receiver : Address)
deriving DecidableEq, Repr

/-- The handle `app.external(tokenAddress, superTokenABI)` returns: what each method of the
token contract answers. -/
structure TokenContract where
  name : Except Error String
  decimals : Except Error Int
  symbol : Except Error String
  getUnderlyingToken : Except Error Address
  balanceOf : Address → Except Error Int

/-- The constant-flow-agreement contract, `settings.superfluid.cfa.contract`; `getFlow`
answers the `timestamp` property of the flow. -/
structure CFAContract where
  getFlow : Address → Address → Address → Except Error Int

/-- The part of the `app` object the handlers use. -/
structure App where
  external : Address → TokenContract

/-- The part of the `settings` object the handlers use: `cfa` is
`settings.superfluid.cfa.contract`. -/
structure Settings where
  cfa : CFAContract

/-- The module-level `Map` of contract handles, `superTokenContracts`, as the list of its
entries in insertion order. Keys are compared as strings. -/
abbrev ContractCache := List (Address × TokenContract)

/-- The method `Map.prototype.get`. -/
def mapGet (cache : ContractCache) (key : Address) : Option TokenContract :=
  match cache with
  | [] => none
  | (k, v) :: rest => if k = key then some v else mapGet rest key

/-- The method `Map.prototype.set`: the entry of an existing key is replaced where it
stands, a new key is added at the end. -/
def mapSet (cache : ContractCache) (key : Address) (value : TokenContract) : ContractCache :=
  match cache with
  | [] => [(key, value)]
  | (k, v) :: rest => if k = key then (k, value) :: rest else (k, v) :: mapSet rest key value

/-- The helpers the store imports from modules that are not among the sources. An
implementation of `isFlowEqual` receives the slot as it is, `none` for an empty one, and
may throw. -/
structure Helpers where
  addressesEqual : Address → Address → Bool
  isFlowEqual : Option Flow → FlowUpdated → Except Error Bool
  getFlowEventEntity : FlowUpdated → Bool → Address
  calculateFlowAmount : Int → Int → Option Int → Int

/-- The timing of the external answers, as far as a handler can tell it: for each
`Promise.all` of the source, which of two rejections settles first. The first three
fields belong to the four metadata fetches of `newSuperToken` (name against decimals,
symbol against underlying token, the first pair against the second), the last one to
`handleFlowUpdated` (the registry update against the ledger update). -/
structure Timing where
  nameFirst : Bool
  symbolFirst : Bool
  nameOrDecimalsFirst : Bool
  superTokensFirst : Bool

/-! ## Asynchronous functions -/

/-- The run of an `async` function: how its promise settles and which external calls it
issued. The calls of one run are in the order of issue; the calls of the runs a
`Promise.all` starts are listed run after run. -/
structure Eff (α : Type) where
  result : Except Error α
  calls : List Call

namespace Eff

/-- A promise that is already resolved. -/
def ret {α : Type} (a : α) : Eff α := ⟨.ok a, []⟩

/-- The expression `await m` followed by the rest of the function body. -/
def andThen {α β : Type} (m : Eff α) (f : α → Eff β) : Eff β :=
  match m.result with
  | .error e => ⟨.error e, m.calls⟩
  | .ok a => ⟨(f a).result, m.calls ++ (f a).calls⟩

/-- The expression `contract.method(..).toPromise()`: one external call and its answer. -/
def call {α : Type} (c : Call) (answer : Except Error α) : Eff α := ⟨answer, [c]⟩

/-- A synchronous computation that may throw. -/
def lift {α : Type} (r : Except Error α) : Eff α := ⟨r, []⟩

/-- A run preceded by synchronous external calls. -/
def after {α : Type} (calls : List Call) (m : Eff α) : Eff α := ⟨m.result, calls ++ m.calls⟩

/-- The expression `Promise.all([a, b])`: both runs take place whatever the other does,
and the result is rejected as soon as one of them is. When both are rejected, the
rejection reported is the one that settled first, which the timing of the external
answers decides: `firstSettled` tells whether it is the one of the first element. The
calls are listed element after element; their order in time across the two elements is
not recorded. -/
def all {α β : Type} (firstSettled : Bool) (a : Eff α) (b : Eff β) : Eff (α × β) :=
  ⟨match a.result, b.result with
   | .ok x, .ok y => .ok (x, y)
   | .error e, .ok _ => .error e
   | .ok _, .error e => .error e
   | .error e₁, .error e₂ => .error (if firstSettled then e₁ else e₂),
   a.calls ++ b.calls⟩

end Eff

instance : Monad Eff where
  pure := Eff.ret
  bind := Eff.andThen

/-! ## Array primitives -/

/-- The method `Array.prototype.findIndex` with a callback that may throw; `none`
stands for `-1`. -/
def findIndex {α : Type} (p : α → Except Error Bool) : List α → Except Error (Option Nat)
  | [] => .ok none
  | x :: xs =>
    match p x with
    | .error e => .error e
    | .ok true => .ok (some 0)
    | .ok false =>
      match findIndex p xs with
      | .error e => .error e
      | .ok none => .ok none
      | .ok (some i) => .ok (some (i + 1))

/-- The method `Array.prototype.findIndex` with a callback that cannot throw. -/
def findIndexB {α : Type} (p : α → Bool) : List α → Option Nat
  | [] => none
  | x :: xs =>
    if p x then some 0
    else
      match findIndexB p xs with
      | none => none
      | some i => some (i + 1)

/-- The expression `xs[i]` on an array with empty slots, where `i` is the result of
`findIndex`: `undefined` (here `none`) for `-1` and for an empty slot. -/
def slotAt {α : Type} (xs : List (Option α)) : Option Nat → Option α
  | none => none
  | some i => xs[i]?.join

/-- The comparison `x > 0` of JavaScript, false when `x` is `undefined`. -/
def gtZero : Option Int → Bool
  | none => false
  | some r => decide (0 < r)

/-! ## The handlers -/

/-- `isAgentSender` of the source. -/
def isAgentSender (H : Helpers) (agentAddress sender receiver : Address) : Bool :=
  H.addressesEqual agentAddress sender || H.addressesEqual agentAddress receiver

/-- `getSuperTokenContract` of the source: the handle, the cache after the call and the
external calls made (`app.external` when the address is not a key of the cache). -/
def getSuperTokenContract (contracts : ContractCache) (tokenAddress : Address) (app : App) :
    TokenContract × ContractCache × List Call :=
  let (tokenContract, calls) :=
    match mapGet contracts tokenAddress with
    | some cached => (cached, [])
    | none => (app.external tokenAddress, [Call.external tokenAddress])
  (tokenContract, mapSet contracts tokenAddress tokenContract, calls)

/-- `newSuperToken` of the source. -/
def newSuperToken (timing : Timing) (tokenContract : TokenContract) :
    Eff SuperTokenData := do
  let ((name, decimals), (symbol, underlyingToken)) ←
    Eff.all timing.nameOrDecimalsFirst
      (Eff.all timing.nameFirst (Eff.call .name tokenContract.name)
        (Eff.call .decimals tokenContract.decimals))
      (Eff.all timing.symbolFirst (Eff.call .symbol tokenContract.symbol)
        (Eff.call .getUnderlyingToken tokenContract.getUnderlyingToken))
  pure {
    decimals := decimals
    name := name
    symbol := symbol
    underlyingToken := underlyingToken
    netFlow := 0
    balance := 0 }

/-- `updateSuperTokens` of the source; `now` is what `getCurrentTimestamp()` returns. -/
def updateSuperTokens (H : Helpers) (timing : Timing) (state : State)
    (tokenAddress : Address)
    (tokenContract : TokenContract) (netFlow : Option Int) (now : Int) :
    Eff (List SuperToken) := do
  let oldSuperTokens := state.superTokens
  let agentAddress := state.agentAddress
  let newSuperTokens := oldSuperTokens
  let superTokenIndex :=
    findIndexB (fun t => H.addressesEqual tokenAddress t.address) oldSuperTokens
  -- an index `findIndex` returns is within bounds: the second pattern is the case
  -- `superTokenIndex === -1`
  let base ←
    match superTokenIndex, superTokenIndex.bind (fun i => oldSuperTokens[i]?) with
    | some _, some old => pure old.toSuperTokenData
    | _, _ => newSuperToken timing tokenContract
  let lastUpdateTimestamp := now
  let balance ← Eff.call (.balanceOf agentAddress) (tokenContract.balanceOf agentAddress)
  let updatedToken : SuperToken := { base with
    address := tokenAddress
    lastUpdateTimestamp := lastUpdateTimestamp
    balance := balance }
  let updatedToken :=
    match netFlow with
    | some netFlow => { updatedToken with netFlow := netFlow }
    | none => updatedToken
  match superTokenIndex with
  | none => pure (newSuperTokens ++ [updatedToken])
  | some i => pure (newSuperTokens.set i updatedToken)

/-- `updateFlows` of the source. -/
def updateFlows (H : Helpers) (state : State) (event : FlowUpdated)
    (cfaContract : CFAContract) : Eff (List (Option Flow)) := do
  let agentAddress := state.agentAddress
  let newFlows := state.flows
  let isIncoming := H.addressesEqual event.receiver agentAddress
  let timestamp ← Eff.call (.getFlow event.token event.sender event.receiver)
    (cfaContract.getFlow event.token event.sender event.receiver)
  let flowIndex ← Eff.lift (findIndex (fun flow => H.isFlowEqual flow event) newFlows)
  -- `flowExists`, that is `!!newFlows[flowIndex]`, is true exactly in the first pattern;
  -- the source tests `!flowExists` first, which is the second pattern
  match slotAt newFlows flowIndex, flowIndex with
  | some flow, some i =>
    if gtZero event.flowRate then
      -- Update flow case
      pure (newFlows.set i (some { flow with
        accumulatedAmount := H.calculateFlowAmount timestamp flow.creationTimestamp
          event.flowRate
        lastTimestamp := timestamp
        flowRate := event.flowRate }))
    else
      -- Delete flow case
      pure (newFlows.set i none)
  | _, _ =>
    -- Create flow case
    pure (newFlows ++ [some {
      isIncoming := isIncoming
      entity := H.getFlowEventEntity event isIncoming
      superTokenAddress := event.token
      accumulatedAmount := 0
      creationTimestamp := timestamp
      lastTimestamp := timestamp
      flowRate := event.flowRate }])

/-- The outcome of a handler: the run of its promise and the contract cache it leaves. -/
structure Handled where
  run : Eff State
  contracts : ContractCache

/-- `handleFlowUpdated` of the source. -/
def handleFlowUpdated (H : Helpers) (timing : Timing) (contracts : ContractCache)
    (state : State)
    (event : FlowUpdated) (app : App) (settings : Settings) (now : Int) : Handled :=
  let agentAddress := state.agentAddress
  let sender := event.sender
  let receiver := event.receiver
  let tokenAddress := event.token
  if !isAgentSender H agentAddress sender receiver then
    ⟨pure state, contracts⟩
  else
    let (tokenContract, contracts, calls) := getSuperTokenContract contracts tokenAddress app
    ⟨Eff.after calls (do
      let (newSuperTokens, newFlows) ← Eff.all timing.superTokensFirst
        (updateSuperTokens H timing state tokenAddress tokenContract
          (if H.addressesEqual agentAddress sender then event.totalSenderFlowRate
           else event.totalReceiverFlowRate) now)
        (updateFlows H state event settings.cfa)
      pure { state with superTokens := newSuperTokens, flows := newFlows }),
     contracts⟩

/-- `handleVaultEvent` of the source. -/
def handleVaultEvent (H : Helpers) (timing : Timing) (contracts : ContractCache)
    (state : State)
    (event : VaultEvent) (app : App) (now : Int) : Handled :=
  let tokenAddress := event.token
  let (tokenContract, contracts, calls) := getSuperTokenContract contracts tokenAddress app
  ⟨Eff.after calls (do
    let superTokens ← updateSuperTokens H timing state tokenAddress tokenContract none now
    pure { state with superTokens := superTokens }),
   contracts⟩

/-- Modelled from the spec: the helpers `addressesEqual` (`../helpers/web3-helpers`),
`isFlowEqual`, `getFlowEventEntity` and `calculateFlowAmount` (`./helpers`), whose modules
are not among the sources. Addresses are keys compared for equality; a flow is equal to
an event when it has the token of the event and the counterparty of the event as its
entity, the counterparty being the sender of an incoming flow and the receiver of an
outgoing one; the amount of a flow is the elapsed time times the rate. Reading a field
of an empty slot throws, as any property read of `undefined` does. -/
def specHelpers : Helpers where
  addressesEqual a b := a == b
  isFlowEqual slot event :=
    match slot with
    | none => .error .typeError
    | some flow =>
      .ok (flow.superTokenAddress == event.token &&
        flow.entity == (if flow.isIncoming then event.sender else event.receiver))
  getFlowEventEntity event isIncoming := if isIncoming then event.sender else event.receiver
  calculateFlowAmount currentTimestamp lastTimestamp flowRate :=
    (currentTimestamp - lastTimestamp) * flowRate.getD 0

/-- The flow the create case appends. -/
def createdFlow (H : Helpers) (state : State) (event : FlowUpdated) (ts : Int) : Flow :=
  { isIncoming := H.addressesEqual event.receiver state.agentAddress
    entity := H.getFlowEventEntity event (H.addressesEqual event.receiver state.agentAddress)
    superTokenAddress := event.token
    accumulatedAmount := 0
    creationTimestamp := ts
    lastTimestamp := ts
    flowRate := event.flowRate }

/-- The flow the update case puts in the place of `prev`. -/
def updatedFlow (H : Helpers) (prev : Flow) (event : FlowUpdated) (ts : Int) : Flow :=
  { prev with
    accumulatedAmount := H.calculateFlowAmount ts prev.creationTimestamp event.flowRate
    lastTimestamp := ts
    flowRate := event.flowRate }

/-- The entry `updateSuperTokens` writes: the fields of `base` with the address, the
timestamp and the balance overwritten, and the net flow when one is given. -/
def upsertedToken (base : SuperTokenData) (tokenAddress : Address) (now balance : Int)
    (netFlow : Option Int) : SuperToken :=
  { base with
    address := tokenAddress
    lastUpdateTimestamp := now
    balance := balance
    netFlow := netFlow.getD base.netFlow }

/-- The rejection a promise carries, if any. -/
def errorOf {α : Type} : Except Error α → List Error
  | .error e => [e]
  | .ok _ => []

/-- The rejections among the four metadata fetches of `newSuperToken`. -/
def metadataFailures (tokenContract : TokenContract) : List Error :=
  errorOf tokenContract.name ++ errorOf tokenContract.decimals ++
    errorOf tokenContract.symbol ++ errorOf tokenContract.getUnderlyingToken

/-- The rejections among the fetches `updateSuperTokens` makes on the token contract: the
four metadata fetches when the token is not in the registry, and the balance fetch. -/
def tokenFetchFailures (tokenContract : TokenContract) (agentAddress : Address)
    (unseen : Bool) : List Error :=
  (if unseen then metadataFailures tokenContract else []) ++
    errorOf (tokenContract.balanceOf agentAddress)

/-- The net flow `handleFlowUpdated` passes to `updateSuperTokens`. -/
def observedNetFlow (H : Helpers) (state : State) (event : FlowUpdated) : Option Int :=
  if H.addressesEqual state.agentAddress event.sender then event.totalSenderFlowRate
  else event.totalReceiverFlowRate

/-- The handle a handler works with: the first component of `getSuperTokenContract`. -/
def contractFor (contracts : ContractCache) (tokenAddress : Address) (app : App) :
    TokenContract :=
  (getSuperTokenContract contracts tokenAddress app).1

/-- Whether the registry has no entry for the address, `superTokenIndex === -1`. -/
def unseen (H : Helpers) (state : State) (tokenAddress : Address) : Bool :=
  (findIndexB (fun t => H.addressesEqual tokenAddress t.address) state.superTokens).isNone

/-! ## Scenarios of the specification -/

/-- A state of the agent `"agent"` with the given ledger and an empty registry. -/
def ledgerState (flows : List (Option Flow)) : State :=
  { agentAddress := "agent", superTokens := [], flows := flows, others := [] }

/-- The event `FlowUpdated(sender = agent, receiver = X, token = T)` with the given rate. -/
def outgoingEvent (rate : Option Int) : FlowUpdated :=
  { sender := "agent", receiver := "X", token := "T", flowRate := rate,
    totalSenderFlowRate := rate, totalReceiverFlowRate := none }

/-- A flow contract whose `getFlow` answers the given timestamp. -/
def cfaAt (ts : Int) : CFAContract := ⟨fun _ _ _ => .ok ts⟩

/-- The flow of Scenario A. -/
def flowA : Flow :=
  { isIncoming := false, entity := "X", superTokenAddress := "T", accumulatedAmount := 0,
    creationTimestamp := 1000, lastTimestamp := 1000, flowRate := some 100 }

/-- The flow the specification expects after Scenario B. -/
def flowB : Flow :=
  { flowA with accumulatedAmount := 10000, lastTimestamp := 1100, flowRate := some 150 }

/-- The amount the specification states for the update case: the previous amount plus
the previous rate over the time since the previous event. -/
def specAccrual (prev : Flow) (ts : Int) : Int :=
  prev.accumulatedAmount + prev.flowRate.getD 0 * (ts - prev.lastTimestamp)

/-- On the ledger that holds `prev` alone, the event leaves one flow whose accumulated
amount is the one the specification states. -/
def AccruesAsSpecified (H : Helpers) (prev : Flow) (event : FlowUpdated) (ts : Int) : Prop :=
  ∃ f, (updateFlows H (ledgerState [some prev]) event (cfaAt ts)).result = .ok [some f] ∧
    f.accumulatedAmount = specAccrual prev ts

/-- A flow to another counterparty. -/
def flowY : Flow :=
  { isIncoming := false, entity := "Y", superTokenAddress := "T", accumulatedAmount := 40,
    creationTimestamp := 900, lastTimestamp := 950, flowRate := some 5 }

/-- The same event applied twice in sequence, the flow contract answering the same both
times. -/
def applyTwice (H : Helpers) (state : State) (event : FlowUpdated)
    (cfaContract : CFAContract) : Except Error (List (Option Flow)) :=
  match (updateFlows H state event cfaContract).result with
  | .error e => .error e
  | .ok flows => (updateFlows H { state with flows := flows } event cfaContract).result

/-- The events of a list applied in sequence, each with the flow contract as it answers
when the event is handled. -/
def applyAll (H : Helpers) (state : State) :
    List (FlowUpdated × CFAContract) → Except Error (List (Option Flow))
  | [] => .ok state.flows
  | (event, cfaContract) :: rest =>
    match (updateFlows H state event cfaContract).result with
    | .error e => .error e
    | .ok flows => applyAll H { state with flows := flows } rest

/-- The helper `isFlowEqual` looks at the identity key of an entry only. -/
def KeyOnly (H : Helpers) : Prop :=
  ∀ (f g : Flow) (event : FlowUpdated), f.entity = g.entity →
    f.superTokenAddress = g.superTokenAddress → f.isIncoming = g.isIncoming →
    H.isFlowEqual (some f) event = H.isFlowEqual (some g) event

/-- A token contract all of whose methods answer. -/
def tokenT : TokenContract :=
  { name := .ok "Super T", decimals := .ok 18, symbol := .ok "STx",
    getUnderlyingToken := .ok "U", balanceOf := fun _ => .ok 1000 }

/-- A token contract whose `balanceOf` is rejected. -/
def tokenDown : TokenContract :=
  { tokenT with balanceOf := fun _ => .error (.rejected "balanceOf") }

/-- An `app` whose contracts answer. -/
def appUp : App := ⟨fun _ => tokenT⟩

/-- An `app` whose contracts reject `balanceOf`. -/
def appDown : App := ⟨fun _ => tokenDown⟩

/-- The registry entry of the token `T`. -/
def entryT : SuperToken :=
  { address := "T", name := "Super T", symbol := "STx", decimals := 18,
    underlyingToken := "U", netFlow := -10, balance := 500, lastUpdateTimestamp := 900 }

/-- The registry entry of another token. -/
def entryV : SuperToken :=
  { address := "V", name := "Super V", symbol := "SVx", decimals := 6,
    underlyingToken := "W", netFlow := 3, balance := 70, lastUpdateTimestamp := 800 }

/-- A state with two tokens, one flow and one further property. -/
def registryState : State :=
  { agentAddress := "agent", superTokens := [entryV, entryT], flows := [some flowA],
    others := [("isSyncing", "false")] }

/-- A `FlowUpdated` event between two accounts other than the agent. -/
def strangerEvent : FlowUpdated :=
  { sender := "P", receiver := "Q", token := "T", flowRate := some 9,
    totalSenderFlowRate := some (-9), totalReceiverFlowRate := some 9 }

/-- Settings whose flow contract answers the given timestamp. -/
def settingsAt (ts : Int) : Settings := ⟨cfaAt ts⟩

/-! ## The contract cache over a sequence of calls -/

/-- The addresses of a list passed to `getSuperTokenContract` one after the other: the
cache left and the external calls made. -/
def getSuperTokenContracts (app : App) : ContractCache → List Address → ContractCache × List Call
  | contracts, [] => (contracts, [])
  | contracts, tokenAddress :: rest =>
    let step := getSuperTokenContract contracts tokenAddress app
    let later := getSuperTokenContracts app step.2.1 rest
    (later.1, step.2.2 ++ later.2)

/-- A cache that holds a handle for `T`. -/
def cacheT : ContractCache := [("V", tokenDown), ("T", tokenT)]

/-- Whether an external call is one of the four metadata fetches. -/
def Call.isMetadata : Call → Bool
  | .name => true
  | .decimals => true
  | .symbol => true
  | .getUnderlyingToken => true
  | _ => false

/-! ## Invariants -/

/-- No two entries of the registry have equal addresses. -/
def UniqueAddresses (H : Helpers) (tokens : List SuperToken) : Prop :=
  ∀ (i j : Nat) (s t : SuperToken), tokens[i]? = some s → tokens[j]? = some t →
    H.addressesEqual s.address t.address = true → i = j

/-- The identity key of a flow. -/
def Flow.key (f : Flow) : Address × Address × Bool :=
  (f.entity, f.superTokenAddress, f.isIncoming)

/-- No two present entries of the ledger have the same identity key. -/
def UniqueKeys (flows : List (Option Flow)) : Prop :=
  ∀ (i j : Nat) (f g : Flow), flows[i]? = some (some f) → flows[j]? = some (some g) →
    f.key = g.key → i = j

/-- The helper `isFlowEqual` holds of every flow that has the identity key of the flow
the event would create. -/
def MatchesKey (H : Helpers) : Prop :=
  ∀ (f : Flow) (state : State) (event : FlowUpdated) (ts : Int),
    f.key = (createdFlow H state event ts).key → H.isFlowEqual (some f) event = .ok true

/-- The helper `isFlowEqual` does not hold of an empty slot. -/
def RejectsEmpty (H : Helpers) : Prop :=
  ∀ event : FlowUpdated, H.isFlowEqual none event ≠ .ok true

/-! ## The views

`hooks/useSuperTokenItems.js` and `components/SidePanels/UpdateFlow/index.js`. The React
hooks are read as the pure functions of their inputs they memoize; the clock the helpers
read is the parameter `now`. -/

/-- The `network` object of `useNetwork`. -/
structure Network where
  type : String
deriving DecidableEq, Repr

/-- The super token as the views receive it, with the properties they read. -/
structure ViewToken where
  address : Address
  balance : Int
  decimals : Int
  depletionDate : Option Int
  lastUpdateDate : Int
  logoURI : Option String
  name : String
  inflowRate : Option Int
  outflowRate : Option Int
  netFlow : Int
  symbol : String
  underlyingToken : Address
deriving DecidableEq, Repr

/-- The item `useSuperTokenItems` builds for a token; a property that is `undefined`
is `none`. -/
structure BalanceItem where
  address : Address
  amount : Int
  convertedAmount : Option Rat
  decimals : Int
  depletionDate : Option Int
  lastUpdateDate : Int
  logoURI : Option String
  name : String
  inflowRate : Option Int
  outflowRate : Option Int
  netFlow : Int
  convertedNetFlow : Option Rat
  symbol : String
deriving DecidableEq, Repr

/-- The object `useConvertRates` returns: for a price-lookup key, the rates by currency. -/
abbrev ConvertRates := List (String × List (String × Rat))

/-- The property read `obj[key]`, `none` when the object has no such property. -/
def prop {β : Type} (obj : List (String × β)) (key : String) : Option β :=
  match obj with
  | [] => none
  | (k, v) :: rest => if k = key then some v else prop rest key

/-- The helpers the views import from `../helpers` and `isAddress` of `web3-utils`, none
of which is among the sources. `calculateCurrentAmount` reads the clock: its first
argument here is the current time. -/
structure ViewHelpers where
  isAddress : String → Bool
  calculateCurrentAmount : Int → Int → Int → Int → Int
  getConvertedAmount : Int → Rat → Rat
  getConvertRateToken : ViewToken → Bool → String
  isTestNetwork : Network → Bool
  fromDecimals : Int → Int → Rat
  DEFAULT_CURRENCY : String

/-- Whether a JavaScript number or `undefined` is truthy: it is present and not 0. -/
def truthy : Option Rat → Bool
  | none => false
  | some r => decide (r ≠ 0)

/-- The expression `convertRates[getConvertRateToken(superToken, isTestNet)]?.[DEFAULT_CURRENCY]`
of `useSuperTokenItems`. -/
def conversionRateOf (V : ViewHelpers) (convertRates : ConvertRates) (isTestNet : Bool)
    (superToken : ViewToken) : Option Rat :=
  (prop convertRates (V.getConvertRateToken superToken isTestNet)).bind
    (fun rates => prop rates V.DEFAULT_CURRENCY)

/-- The value of `isTestNet` in `useSuperTokenItems`, `network && isTestNetwork(network)`
read as a boolean. -/
def isTestNetOf (V : ViewHelpers) (network : Option Network) : Bool :=
  match network with
  | none => false
  | some n => V.isTestNetwork n

/-- `useSuperTokenItems` of the source; `useConvertRates` is the hook it calls, `now` the
time at which the memoized value is computed. -/
def useSuperTokenItems (V : ViewHelpers) (network : Option Network)
    (useConvertRates : List String → List String → Option String → ConvertRates)
    (now : Int) (superTokens : List ViewToken) : List BalanceItem :=
  let isTestNet := isTestNetOf V network
  let tokenAddresses := superTokens.map (fun superToken =>
    V.getConvertRateToken superToken isTestNet)
  let convertRates :=
    useConvertRates tokenAddresses [V.DEFAULT_CURRENCY] (network.map (fun n => n.type))
  -- Filter out tokens with empty balances.
  (superTokens.filter (fun t =>
      decide (0 < V.calculateCurrentAmount now t.balance t.netFlow t.lastUpdateDate))).map
    (fun superToken =>
      let conversionRate := conversionRateOf V convertRates isTestNet superToken
      let converted : Option Rat × Option Rat :=
        if truthy conversionRate then
          (conversionRate.map (V.getConvertedAmount superToken.balance),
           conversionRate.map (V.getConvertedAmount superToken.netFlow))
        else (none, none)
      { address := superToken.address
        amount := superToken.balance
        convertedAmount := converted.1
        decimals := superToken.decimals
        depletionDate := superToken.depletionDate
        lastUpdateDate := superToken.lastUpdateDate
        logoURI := superToken.logoURI
        name := superToken.name
        inflowRate := superToken.inflowRate
        outflowRate := superToken.outflowRate
        netFlow := superToken.netFlow
        convertedNetFlow := converted.2
        symbol := superToken.symbol })

/-- The callback of `findIndex` in the `existingFlow` memo of `InnerUpdateFlow`. Reading
`f.isCancelled` of an empty slot throws. -/
def existingFlowCallback (H : Helpers) (outgoingFlowSelected : Bool)
    (recipient connectedAccount tokenAddress : Address) : Option Flow → Except Error Bool
  | none => .error .typeError
  | some f =>
    .ok (!(f.isCancelled.getD false) &&
      (if outgoingFlowSelected then !f.isIncoming else f.isIncoming) &&
      H.addressesEqual f.entity (if outgoingFlowSelected then recipient else connectedAccount) &&
      H.addressesEqual f.superTokenAddress tokenAddress)

/-- The `existingFlow` memo of `InnerUpdateFlow`; `selectedTokenAddress` is
`selectedToken.address`, `none` when it is `undefined`; the result `none` stands for both
`null` and `undefined`. -/
def existingFlow (H : Helpers) (V : ViewHelpers) (flows : List (Option Flow))
    (isFlowUpdateOperation outgoingFlowSelected : Bool) (recipient connectedAccount : Address)
    (selectedTokenAddress : Option Address) : Except Error (Option Flow) :=
  match selectedTokenAddress with
  | none => .ok none
  | some tokenAddress =>
    if isFlowUpdateOperation || !V.isAddress recipient || !V.isAddress tokenAddress then
      .ok none
    else
      match findIndex (existingFlowCallback H outgoingFlowSelected recipient connectedAccount
          tokenAddress) flows with
      | .error e => .error e
      | .ok flowIndex => .ok (slotAt flows flowIndex)

/-- The `data` of a custom token selected in the panel. -/
structure CustomTokenData where
  userBalance : Int
  decimals : Int
  symbol : String
deriving DecidableEq, Repr

/-- The first argument of `validateFields`: a super token of the registry, or the selected
custom token. The tag is the argument `isCustomToken`, as `handleSubmit` passes it. -/
inductive TokenArg where
  | superToken (token : ViewToken)
  | custom (data : CustomTokenData)
deriving DecidableEq, Repr

/-- The messages `validateFields` returns, in the order of its tests: the recipient is
not a valid address; the flow goes to the agent of the app; the rate is negative or
zero; the required deposit exceeds the balance of the token of that symbol. -/
inductive ValidationError where
  | invalidRecipient
  | flowToAgent
  | nonPositiveRate
  | insufficientBalance (symbol : String)
deriving DecidableEq, Repr

/-- The test `Number(flowRate) <= 0`, false when the number is `NaN` (here `none`). -/
def numberLeZero : Option Rat → Bool
  | none => false
  | some r => decide (r ≤ 0)

/-- The balance, the decimals and the symbol `validateFields` reads from its first
argument. -/
def balanceOfArg (V : ViewHelpers) (now : Int) : TokenArg → Int × Int × String
  | .superToken t =>
    (V.calculateCurrentAmount now t.balance t.netFlow t.lastUpdateDate, t.decimals, t.symbol)
  | .custom data => (data.userBalance, data.decimals, data.symbol)

/-- `validateFields` of the source; `none` is `undefined`, no error. `flowRate` is
`Number(flowRate)`; a required deposit `null` (here `none`) compares as 0. -/
def validateFields (H : Helpers) (V : ViewHelpers) (now : Int) (superToken : TokenArg)
    (recipient : String) (flowRate : Option Rat) (agentAddress : Address)
    (requiredDeposit : Option Rat) (isOutgoingFlow : Bool) : Option ValidationError :=
  if !V.isAddress recipient then
    some .invalidRecipient
  else if isOutgoingFlow && H.addressesEqual recipient agentAddress then
    some .flowToAgent
  else if numberLeZero flowRate then
    some .nonPositiveRate
  else
    let (currentBalance, decimals, symbol) := balanceOfArg V now superToken
    if V.fromDecimals currentBalance decimals < requiredDeposit.getD 0 then
      some (.insufficientBalance symbol)
    else none

/-- Modelled from the spec: the helpers `calculateCurrentAmount`, `getConvertedAmount`,
`getConvertRateToken`, `isTestNetwork`, `fromDecimals` and the constant `DEFAULT_CURRENCY`
of `../helpers`, and `isAddress` of `web3-utils`, none of which is among the sources. The
live amount is `balance + netFlow * (now - lastUpdate)`; a converted amount is the amount
times the rate; the price-lookup key of a token is its address; an amount is scaled by
its decimals. The specification does not give the format of an address: `isAddress`
follows `web3-utils` on addresses of one case, 40 hexadecimal digits all in lower case or
all in upper case, with or without the prefix `0x`; it refuses addresses of mixed case,
which `web3-utils` accepts when their checksum holds. -/
def specView : ViewHelpers where
  isAddress s :=
    let digits :=
      if s.data.take 2 = "0x".data ∨ s.data.take 2 = "0X".data then s.data.drop 2 else s.data
    decide (digits.length = 40) &&
      (digits.all (fun c => "0123456789abcdef".data.contains c) ||
        digits.all (fun c => "0123456789ABCDEF".data.contains c))
  calculateCurrentAmount now balance netFlow lastUpdateDate :=
    balance + netFlow * (now - lastUpdateDate)
  getConvertedAmount amount rate := amount * rate
  getConvertRateToken superToken _ := superToken.address
  isTestNetwork n := decide (n.type ≠ "main")
  fromDecimals amount decimals := (amount : Rat) / (10 : Rat) ^ decimals.toNat
  DEFAULT_CURRENCY := "USD"

/-- The token of Scenario D. -/
def tokenD : ViewToken :=
  { address := "T", balance := 1000, decimals := 18, depletionDate := none,
    lastUpdateDate := 1000, logoURI := none, name := "Super T", inflowRate := none,
    outflowRate := none, netFlow := -10, symbol := "STx", underlyingToken := "U" }

/-- A token that accrues. -/
def tokenE : ViewToken :=
  { address := "V", balance := 70, decimals := 6, depletionDate := none,
    lastUpdateDate := 800, logoURI := none, name := "Super V", inflowRate := none,
    outflowRate := none, netFlow := 3, symbol := "SVx", underlyingToken := "W" }

/-- A price source that knows the rate 2 of `V` and the rate 0 of `T`. -/
def ratesZeroT : List String → List String → Option String → ConvertRates :=
  fun _ _ _ => [("V", [("USD", 2)]), ("T", [("USD", 0)])]

/-- A price source that knows no rate. -/
def ratesNone : List String → List String → Option String → ConvertRates :=
  fun _ _ _ => []

/-- The live amount of a token, as the filter of `useSuperTokenItems` computes it. -/
def liveAmount (V : ViewHelpers) (now : Int) (t : ViewToken) : Int :=
  V.calculateCurrentAmount now t.balance t.netFlow t.lastUpdateDate

/-- The rate `useSuperTokenItems` looks up for a token of its list. -/
def rateIn (V : ViewHelpers) (network : Option Network)
    (useConvertRates : List String → List String → Option String → ConvertRates)
    (superTokens : List ViewToken) (t : ViewToken) : Option Rat :=
  conversionRateOf V
    (useConvertRates
      (superTokens.map (fun superToken =>
        V.getConvertRateToken superToken (isTestNetOf V network)))
      [V.DEFAULT_CURRENCY] (network.map (fun n => n.type)))
    (isTestNetOf V network) t

/-- The item of the token of Scenario D without converted amounts. -/
def itemD : BalanceItem :=
  { address := "T", amount := 1000, convertedAmount := none, decimals := 18,
    depletionDate := none, lastUpdateDate := 1000, logoURI := none, name := "Super T",
    inflowRate := none, outflowRate := none, netFlow := -10, convertedNetFlow := none,
    symbol := "STx" }

/-- Whether a present entry passes the test of `existingFlowCallback`. -/
def isActiveMatch (H : Helpers) (outgoingFlowSelected : Bool)
    (recipient connectedAccount tokenAddress : Address) (f : Flow) : Bool :=
  !(f.isCancelled.getD false) &&
    (if outgoingFlowSelected then !f.isIncoming else f.isIncoming) &&
    H.addressesEqual f.entity (if outgoingFlowSelected then recipient else connectedAccount) &&
    H.addressesEqual f.superTokenAddress tokenAddress

/-- An address `isAddress` of the specification accepts. -/
def addressX : Address := "0xaaaaaaaaaaaaaaaaaaaaaaaaaaaaaaaaaaaaaaaa"

/-- Another address `isAddress` of the specification accepts. -/
def addressT : Address := "0xbbbbbbbbbbbbbbbbbbbbbbbbbbbbbbbbbbbbbbbb"

/-- A cancelled flow to `addressX` in the token `addressT`. -/
def flowCancelled : Flow :=
  { isIncoming := false, entity := addressX, superTokenAddress := addressT,
    accumulatedAmount := 10, creationTimestamp := 100, lastTimestamp := 200,
    flowRate := some 1, isCancelled := some true }

/-- An active flow to `addressX` in the token `addressT`. -/
def flowActive : Flow :=
  { isIncoming := false, entity := addressX, superTokenAddress := addressT,
    accumulatedAmount := 0, creationTimestamp := 300, lastTimestamp := 300,
    flowRate := some 2 }

/-- A custom token with the balance 5000 at 2 decimals. -/
def customToken : TokenArg :=
  .custom { userBalance := 5000, decimals := 2, symbol := "CT" }

/-- A timing in which the first element of every `Promise.all` settles first. -/
def inOrder : Timing :=
  { nameFirst := true, symbolFirst := true, nameOrDecimalsFirst := true,
    superTokensFirst := true }

/-- A timing in which the ledger update of `handleFlowUpdated` settles before the
registry update. -/
def flowsFirst : Timing := { inOrder with superTokensFirst := false }

/-! ## Lemmas on the array primitives -/

theorem findIndex_some_get {α : Type} (p : α → Except Error Bool) :
    ∀ (xs : List α) (i : Nat), findIndex p xs = .ok (some i) →
      ∃ x, xs[i]? = some x ∧ p x = .ok true := by
  intro xs
  induction xs with
  | nil => intro i h; simp [findIndex] at h
  | cons x xs ih =>
    intro i h
    unfold findIndex at h
    cases hx : p x with
    | error e => simp [hx] at h
    | ok b =>
      cases b with
      | true =>
        simp only [hx, Except.ok.injEq, Option.some.injEq] at h
        subst h
        exact ⟨x, by simp, hx⟩
      | false =>
        simp only [hx] at h
        cases hr : findIndex p xs with
        | error e => simp [hr] at h
        | ok r =>
          cases r with
          | none => simp [hr] at h
          | some j =>
            simp only [hr, Except.ok.injEq, Option.some.injEq] at h
            subst h
            obtain ⟨y, hy, hp⟩ := ih j hr
            exact ⟨y, by simpa using hy, hp⟩

theorem findIndex_some_lt {α : Type} (p : α → Except Error Bool) (xs : List α) (i : Nat)
    (h : findIndex p xs = .ok (some i)) : i < xs.length := by
  obtain ⟨x, hx, _⟩ := findIndex_some_get p xs i h
  exact (List.getElem?_eq_some.mp hx).1

theorem findIndex_append_hit {α : Type} (p : α → Except Error Bool) (y : α)
    (hy : p y = .ok true) :
    ∀ xs : List α, findIndex p xs = .ok none →
      findIndex p (xs ++ [y]) = .ok (some xs.length) := by
  intro xs
  induction xs with
  | nil => intro _; simp [findIndex, hy]
  | cons x xs ih =>
    intro h
    unfold findIndex at h
    cases hx : p x with
    | error e => simp [hx] at h
    | ok b =>
      cases b with
      | true => simp [hx] at h
      | false =>
        simp only [hx] at h
        cases hr : findIndex p xs with
        | error e => simp [hr] at h
        | ok r =>
          cases r with
          | some j => simp [hr] at h
          | none =>
            simp [findIndex, hx, ih hr]

theorem findIndex_set_hit {α : Type} (p : α → Except Error Bool) (y : α)
    (hy : p y = .ok true) :
    ∀ (xs : List α) (i : Nat), findIndex p xs = .ok (some i) →
      findIndex p (xs.set i y) = .ok (some i) := by
  intro xs
  induction xs with
  | nil => intro i h; simp [findIndex] at h
  | cons x xs ih =>
    intro i h
    unfold findIndex at h
    cases hx : p x with
    | error e => simp [hx] at h
    | ok b =>
      cases b with
      | true =>
        simp only [hx, Except.ok.injEq, Option.some.injEq] at h
        subst h
        simp [findIndex, hy]
      | false =>
        simp only [hx] at h
        cases hr : findIndex p xs with
        | error e => simp [hr] at h
        | ok r =>
          cases r with
          | none => simp [hr] at h
          | some j =>
            simp only [hr, Except.ok.injEq, Option.some.injEq] at h
            subst h
            simp [findIndex, hx, ih j hr]

/-! ## The three cases of `updateFlows` -/

theorem updateFlows_create_eq (H : Helpers) (state : State) (event : FlowUpdated)
    (cfaContract : CFAContract) (ts : Int) (idx : Option Nat)
    (hts : cfaContract.getFlow event.token event.sender event.receiver = .ok ts)
    (hidx : findIndex (fun flow => H.isFlowEqual flow event) state.flows = .ok idx)
    (hslot : slotAt state.flows idx = none) :
    (updateFlows H state event cfaContract).result =
      .ok (state.flows ++ [some (createdFlow H state event ts)]) := by
  simp only [updateFlows, bind, pure, Eff.andThen, Eff.call, Eff.lift, Eff.ret, hts, hidx,
    hslot, createdFlow]

theorem updateFlows_update_eq (H : Helpers) (state : State) (event : FlowUpdated)
    (cfaContract : CFAContract) (ts : Int) (i : Nat) (prev : Flow)
    (hts : cfaContract.getFlow event.token event.sender event.receiver = .ok ts)
    (hidx : findIndex (fun flow => H.isFlowEqual flow event) state.flows = .ok (some i))
    (hslot : state.flows[i]? = some (some prev))
    (hrate : gtZero event.flowRate = true) :
    (updateFlows H state event cfaContract).result =
      .ok (state.flows.set i (some (updatedFlow H prev event ts))) := by
  have hs : slotAt state.flows (some i) = some prev := by simp [slotAt, hslot]
  simp only [updateFlows, bind, pure, Eff.andThen, Eff.call, Eff.lift, Eff.ret, hts, hidx,
    hs, hrate, if_true, updatedFlow]

theorem updateFlows_delete_eq (H : Helpers) (state : State) (event : FlowUpdated)
    (cfaContract : CFAContract) (ts : Int) (i : Nat) (prev : Flow)
    (hts : cfaContract.getFlow event.token event.sender event.receiver = .ok ts)
    (hidx : findIndex (fun flow => H.isFlowEqual flow event) state.flows = .ok (some i))
    (hslot : state.flows[i]? = some (some prev))
    (hrate : gtZero event.flowRate = false) :
    (updateFlows H state event cfaContract).result = .ok (state.flows.set i none) := by
  have hs : slotAt state.flows (some i) = some prev := by simp [slotAt, hslot]
  simp [updateFlows, bind, pure, Eff.andThen, Eff.call, Eff.lift, Eff.ret, hts, hidx,
    hs, hrate]

theorem gtZero_of_pos {rate : Option Int} {r : Int} (hr : rate = some r) (hpos : 0 < r) :
    gtZero rate = true := by
  subst hr; simpa [gtZero] using hpos

theorem gtZero_of_nonpos {rate : Option Int} (h : ∀ r, rate = some r → r ≤ 0) :
    gtZero rate = false := by
  cases rate with
  | none => rfl
  | some r => simpa [gtZero] using h r rfl

theorem keyOnly_specHelpers : KeyOnly specHelpers := by
  intro f g event h1 h2 h3
  simp [specHelpers, h1, h2, h3]

theorem isFlowEqual_updated (H : Helpers) (hkey : KeyOnly H) (prev : Flow) (ts : Int)
    (event event' : FlowUpdated) (h : H.isFlowEqual (some prev) event' = .ok true) :
    H.isFlowEqual (some (updatedFlow H prev event ts)) event' = .ok true := by
  rw [hkey (updatedFlow H prev event ts) prev event' rfl rfl rfl]
  exact h

/-- A sequence of updates of the entry at index `i` leaves its identity and its creation
timestamp as they were. -/
theorem applyAll_keeps_identity (H : Helpers) (hkey : KeyOnly H) (i : Nat) :
    ∀ (steps : List (FlowUpdated × CFAContract)) (state : State) (prev : Flow),
      state.flows[i]? = some (some prev) →
      (∀ p ∈ steps,
        (∃ ts, p.2.getFlow p.1.token p.1.sender p.1.receiver = .ok ts) ∧
        (∃ r, p.1.flowRate = some r ∧ 0 < r) ∧
        findIndex (fun flow => H.isFlowEqual flow p.1) state.flows = .ok (some i)) →
      ∃ flows' f, applyAll H state steps = .ok flows' ∧ flows'[i]? = some (some f) ∧
        f.creationTimestamp = prev.creationTimestamp ∧ f.entity = prev.entity ∧
        f.superTokenAddress = prev.superTokenAddress ∧ f.isIncoming = prev.isIncoming := by
  intro steps
  induction steps with
  | nil =>
    intro state prev hslot _
    exact ⟨state.flows, prev, rfl, hslot, rfl, rfl, rfl, rfl⟩
  | cons step rest ih =>
    intro state prev hslot hall
    obtain ⟨event, cfaContract⟩ := step
    obtain ⟨⟨ts, hts⟩, ⟨r, hr, hpos⟩, hidx⟩ := hall (event, cfaContract) (by simp)
    have hlt : i < state.flows.length := (List.getElem?_eq_some.mp hslot).1
    have h1 := updateFlows_update_eq H state event cfaContract ts i prev hts hidx hslot
      (gtZero_of_pos hr hpos)
    have hrest : ∀ p ∈ rest,
        (∃ ts, p.2.getFlow p.1.token p.1.sender p.1.receiver = .ok ts) ∧
        (∃ r, p.1.flowRate = some r ∧ 0 < r) ∧
        findIndex (fun flow => H.isFlowEqual flow p.1)
          (state.flows.set i (some (updatedFlow H prev event ts))) = .ok (some i) := by
      intro p hp
      obtain ⟨h1p, h2p, h3p⟩ := hall p (List.mem_cons_of_mem _ hp)
      refine ⟨h1p, h2p, ?_⟩
      obtain ⟨x, hx, hpx⟩ := findIndex_some_get _ _ _ h3p
      rw [hslot] at hx
      cases hx
      exact findIndex_set_hit (fun flow => H.isFlowEqual flow p.1) _
        (isFlowEqual_updated H hkey prev ts event p.1 hpx) state.flows i h3p
    obtain ⟨flows', f, hf, hfi, hc, he, htok, hinc⟩ :=
      ih { state with flows := state.flows.set i (some (updatedFlow H prev event ts)) }
        (updatedFlow H prev event ts) (by simp [hlt]) hrest
    refine ⟨flows', f, ?_, hfi, hc, he, htok, hinc⟩
    simp only [applyAll, h1]
    exact hf

/-! ## The flow ledger -/

/-- C1 (amended): in the update case the replaced entry has
`accumulatedAmount = calculateFlowAmount(ts, prev.creationTimestamp, r)`: the amount is
recomputed from the creation timestamp with the rate of the event; the previous amount,
the previous rate and the previous timestamp do not enter. -/
theorem updateFlows_update_accumulatedAmount (H : Helpers) (state : State)
    (event : FlowUpdated) (cfaContract : CFAContract) (ts : Int) (i : Nat) (prev : Flow)
    (r : Int)
    (hts : cfaContract.getFlow event.token event.sender event.receiver = .ok ts)
    (hidx : findIndex (fun flow => H.isFlowEqual flow event) state.flows = .ok (some i))
    (hslot : state.flows[i]? = some (some prev))
    (hr : event.flowRate = some r) (hpos : 0 < r) :
    ∃ flows' f, (updateFlows H state event cfaContract).result = .ok flows' ∧
      flows'[i]? = some (some f) ∧
      f.accumulatedAmount = H.calculateFlowAmount ts prev.creationTimestamp (some r) := by
  have hlt : i < state.flows.length := (List.getElem?_eq_some.mp hslot).1
  refine ⟨_, updatedFlow H prev event ts,
    updateFlows_update_eq H state event cfaContract ts i prev hts hidx hslot
      (gtZero_of_pos hr hpos), ?_, ?_⟩
  · simp [hlt]
  · simp [updatedFlow, hr]

/-- Scenario B on the code: the amount is 15000. -/
theorem updateFlows_update_accumulatedAmount_witness :
    ∃ flows' f,
      (updateFlows specHelpers (ledgerState [some flowA]) (outgoingEvent (some 150))
        (cfaAt 1100)).result = .ok flows' ∧
      flows'[0]? = some (some f) ∧ f.accumulatedAmount = 15000 :=
  updateFlows_update_accumulatedAmount specHelpers (ledgerState [some flowA])
    (outgoingEvent (some 150)) (cfaAt 1100) 1100 0 flowA 150 rfl rfl rfl rfl (by decide)

/-- C1 (as stated) fails: in Scenario B the code does not leave the amount
`0 + 100 * (1100 - 1000)`, and whatever `calculateFlowAmount` computes, the amount cannot
follow the previous amount, which the code does not pass to it. -/
theorem updateFlows_update_accrual_counterexample :
    ¬ AccruesAsSpecified specHelpers flowA (outgoingEvent (some 150)) 1100 ∧
    ¬ ∃ amount : Int → Int → Option Int → Int,
      AccruesAsSpecified { specHelpers with calculateFlowAmount := amount } flowA
        (outgoingEvent (some 150)) 1100 ∧
      AccruesAsSpecified { specHelpers with calculateFlowAmount := amount }
        { flowA with accumulatedAmount := 7 } (outgoingEvent (some 150)) 1100 := by
  constructor
  · rintro ⟨f, hf, hacc⟩
    have h : (updateFlows specHelpers (ledgerState [some flowA]) (outgoingEvent (some 150))
        (cfaAt 1100)).result = .ok [some { flowB with accumulatedAmount := 15000 }] := rfl
    rw [h] at hf
    simp only [Except.ok.injEq, List.cons.injEq, Option.some.injEq, and_true] at hf
    subst hf
    revert hacc
    decide
  · rintro ⟨amount, ⟨f, hf, hacc⟩, ⟨g, hg, hacc'⟩⟩
    have h1 : (updateFlows { specHelpers with calculateFlowAmount := amount }
        (ledgerState [some flowA]) (outgoingEvent (some 150)) (cfaAt 1100)).result
        = .ok [some { flowB with accumulatedAmount := amount 1100 1000 (some 150) }] := rfl
    have h2 : (updateFlows { specHelpers with calculateFlowAmount := amount }
        (ledgerState [some { flowA with accumulatedAmount := 7 }]) (outgoingEvent (some 150))
        (cfaAt 1100)).result
        = .ok [some { flowB with accumulatedAmount := amount 1100 1000 (some 150) }] := rfl
    rw [h1] at hf
    rw [h2] at hg
    simp only [Except.ok.injEq, List.cons.injEq, Option.some.injEq, and_true] at hf hg
    subst hf
    subst hg
    have e1 : amount 1100 1000 (some 150) = 10000 := by
      simpa [specAccrual, flowA, flowB] using hacc
    have e2 : amount 1100 1000 (some 150) = 10007 := by
      simpa [specAccrual, flowA, flowB] using hacc'
    omega

/-- C2 (amended): in the cancel case the slot of the matching entry is emptied: the result
has the length of the input, no entry at that index (no `isCancelled` flag is set and no
field of the entry is kept) and every other slot as it was. -/
theorem updateFlows_cancel_empties_slot (H : Helpers) (state : State)
    (event : FlowUpdated) (cfaContract : CFAContract) (ts : Int) (i : Nat) (prev : Flow)
    (hts : cfaContract.getFlow event.token event.sender event.receiver = .ok ts)
    (hidx : findIndex (fun flow => H.isFlowEqual flow event) state.flows = .ok (some i))
    (hslot : state.flows[i]? = some (some prev))
    (hrate : ∀ r, event.flowRate = some r → r ≤ 0) :
    ∃ flows', (updateFlows H state event cfaContract).result = .ok flows' ∧
      flows'.length = state.flows.length ∧
      flows'[i]? = some none ∧
      ∀ j, j ≠ i → flows'[j]? = state.flows[j]? := by
  have hlt : i < state.flows.length := (List.getElem?_eq_some.mp hslot).1
  refine ⟨state.flows.set i none,
    updateFlows_delete_eq H state event cfaContract ts i prev hts hidx hslot
      (gtZero_of_nonpos hrate), ?_, ?_, ?_⟩
  · simp
  · simp [hlt]
  · intro j hj
    simp [List.getElem?_set, Ne.symm hj]

/-- Scenario C on the code: the ledger that held the flow holds an empty slot. -/
theorem updateFlows_cancel_empties_slot_witness :
    ∃ flows',
      (updateFlows specHelpers (ledgerState [some flowB]) (outgoingEvent (some 0))
        (cfaAt 1300)).result = .ok flows' ∧
      flows'.length = [some flowB].length ∧
      flows'[0]? = some none ∧
      ∀ j, j ≠ 0 → flows'[j]? = [some flowB][j]? :=
  updateFlows_cancel_empties_slot specHelpers (ledgerState [some flowB])
    (outgoingEvent (some 0)) (cfaAt 1300) 1300 0 flowB rfl rfl rfl
    (by intro r hr; cases hr; decide)

/-- C2 (as stated) fails: after the rate-0 event of Scenario C the result holds no entry
at index 0, hence none with `isCancelled = true` and the former amount and rate. -/
theorem updateFlows_cancel_counterexample :
    ¬ ∃ flows' f,
      (updateFlows specHelpers (ledgerState [some flowB]) (outgoingEvent (some 0))
        (cfaAt 1300)).result = .ok flows' ∧
      flows'[0]? = some (some f) ∧ f.isCancelled = some true ∧
      f.accumulatedAmount = flowB.accumulatedAmount ∧ f.flowRate = flowB.flowRate := by
  rintro ⟨flows', f, hres, hf, _⟩
  have h : (updateFlows specHelpers (ledgerState [some flowB]) (outgoingEvent (some 0))
      (cfaAt 1300)).result = .ok [none] := rfl
  rw [h] at hres
  simp only [Except.ok.injEq] at hres
  subst hres
  simp at hf

/-- C3 (the code at the failing input): a rate-0 event on the empty ledger, which holds
no entry for the key, does not return the ledger as it was: a flow with rate 0 is
appended, and this whatever the helpers compute. -/
theorem updateFlows_unmatched_termination_appends :
    (updateFlows specHelpers (ledgerState []) (outgoingEvent (some 0)) (cfaAt 1300)).result
      = .ok [some { isIncoming := false, entity := "X", superTokenAddress := "T",
                    accumulatedAmount := 0, creationTimestamp := 1300,
                    lastTimestamp := 1300, flowRate := some 0 }] ∧
    ∀ H : Helpers,
      (updateFlows H (ledgerState []) (outgoingEvent (some 0)) (cfaAt 1300)).result
        ≠ .ok (ledgerState []).flows := by
  refine ⟨rfl, ?_⟩
  intro H h
  have h1 := updateFlows_create_eq H (ledgerState []) (outgoingEvent (some 0)) (cfaAt 1300)
    1300 none rfl rfl rfl
  rw [h1] at h
  simp [ledgerState] at h

/-- C4: in the create case (no entry matches, rate `r > 0`, fetched timestamp `ts`) the
result is the input ledger followed by exactly one flow, with `isIncoming` telling whether
the receiver is the agent, `entity` the counterparty `getFlowEventEntity` names (with the
helper of the specification: the sender of an incoming flow, the receiver of an outgoing
one), the token of the event, rate `r`, amount 0 and both timestamps `ts`. -/
theorem updateFlows_create_appends (H : Helpers) (state : State) (event : FlowUpdated)
    (cfaContract : CFAContract) (ts : Int) (r : Int)
    (hts : cfaContract.getFlow event.token event.sender event.receiver = .ok ts)
    (hidx : findIndex (fun flow => H.isFlowEqual flow event) state.flows = .ok none)
    (hr : event.flowRate = some r) (hpos : 0 < r) :
    ∃ f, (updateFlows H state event cfaContract).result = .ok (state.flows ++ [some f]) ∧
      f.isIncoming = H.addressesEqual event.receiver state.agentAddress ∧
      f.entity = H.getFlowEventEntity event f.isIncoming ∧
      (H.getFlowEventEntity = specHelpers.getFlowEventEntity →
        f.entity = if f.isIncoming then event.sender else event.receiver) ∧
      f.superTokenAddress = event.token ∧
      f.flowRate = some r ∧
      f.accumulatedAmount = 0 ∧
      f.creationTimestamp = ts ∧ f.lastTimestamp = ts ∧
      f.isCancelled = none := by
  have _ := hpos
  refine ⟨createdFlow H state event ts,
    updateFlows_create_eq H state event cfaContract ts none hts hidx rfl,
    rfl, rfl, ?_, rfl, hr, rfl, rfl, rfl, rfl⟩
  intro hent
  simp [createdFlow, hent, specHelpers]

/-- Scenario A on the code: the empty ledger gains the flow of the scenario. -/
theorem updateFlows_create_appends_witness :
    ∃ f, (updateFlows specHelpers (ledgerState []) (outgoingEvent (some 100))
        (cfaAt 1000)).result = .ok ([] ++ [some f]) ∧
      f.isIncoming = false ∧ f.entity = "X" ∧ f.superTokenAddress = "T" ∧
      f.flowRate = some 100 ∧ f.accumulatedAmount = 0 ∧
      f.creationTimestamp = 1000 ∧ f.lastTimestamp = 1000 := by
  obtain ⟨f, h, h1, h2, h3, h4, h5, h6, h7, h8, _⟩ :=
    updateFlows_create_appends specHelpers (ledgerState []) (outgoingEvent (some 100))
      (cfaAt 1000) 1000 100 rfl rfl rfl (by decide)
  have hin : f.isIncoming = false := by rw [h1]; rfl
  refine ⟨f, h, hin, ?_, h4, h5, h6, h7, h8⟩
  rw [h3 rfl, hin]
  rfl

/-- C7: when `updateFlows` returns, the result is not shorter than the input ledger and
every index of the input other than the index of the matching entry holds what it held
before; the result exists whenever the timestamp fetch and the lookup succeed. -/
theorem updateFlows_frame (H : Helpers) (state : State) (event : FlowUpdated)
    (cfaContract : CFAContract) (ts : Int) (idx : Option Nat)
    (hts : cfaContract.getFlow event.token event.sender event.receiver = .ok ts)
    (hidx : findIndex (fun flow => H.isFlowEqual flow event) state.flows = .ok idx) :
    ∃ flows', (updateFlows H state event cfaContract).result = .ok flows' ∧
      state.flows.length ≤ flows'.length ∧
      ∀ j, j < state.flows.length → idx ≠ some j → flows'[j]? = state.flows[j]? := by
  cases hs : slotAt state.flows idx with
  | none =>
    refine ⟨_, updateFlows_create_eq H state event cfaContract ts idx hts hidx hs, ?_, ?_⟩
    · simp
    · intro j hj _
      simp [List.getElem?_append_left hj]
  | some prev =>
    cases idx with
    | none => simp [slotAt] at hs
    | some i =>
      obtain ⟨x, hx, _⟩ := findIndex_some_get _ _ _ hidx
      have hslot : state.flows[i]? = some (some prev) := by
        cases x with
        | none => simp [slotAt, hx] at hs
        | some y =>
          simp only [slotAt, hx, Option.join, Option.some_bind, id, Option.some.injEq] at hs
          rw [hx, hs]
      cases hg : gtZero event.flowRate with
      | true =>
        refine ⟨_, updateFlows_update_eq H state event cfaContract ts i prev hts hidx hslot hg,
          ?_, ?_⟩
        · simp
        · intro j _ hj
          have hne : i ≠ j := fun h => hj (by rw [h])
          simp [List.getElem?_set, hne]
      | false =>
        refine ⟨_, updateFlows_delete_eq H state event cfaContract ts i prev hts hidx hslot hg,
          ?_, ?_⟩
        · simp
        · intro j _ hj
          have hne : i ≠ j := fun h => hj (by rw [h])
          simp [List.getElem?_set, hne]

/-- Cancelling the second entry of a ledger leaves the first where and as it was. -/
theorem updateFlows_frame_witness :
    ∃ flows',
      (updateFlows specHelpers (ledgerState [some flowY, some flowB]) (outgoingEvent (some 0))
        (cfaAt 1300)).result = .ok flows' ∧
      2 ≤ flows'.length ∧ flows'[0]? = some (some flowY) := by
  obtain ⟨flows', h, hlen, hframe⟩ :=
    updateFlows_frame specHelpers (ledgerState [some flowY, some flowB])
      (outgoingEvent (some 0)) (cfaAt 1300) 1300 (some 1) rfl rfl
  exact ⟨flows', h, hlen, hframe 0 (by decide) (by decide)⟩

/-- C5 (amended): for an event with rate `r > 0`, on a ledger on which the lookup of the
event succeeds and with a flow contract that answers the same timestamp both times,
applying the event twice in sequence gives the ledger that applying it once gives. The
helpers are taken as the specification describes them: `isFlowEqual` looks at the identity
key only, holds of the flow created from the event, does not hold of an empty slot, and
`calculateFlowAmount` over an empty interval is 0. -/
theorem updateFlows_replay_idempotent (H : Helpers) (state : State) (event : FlowUpdated)
    (cfaContract : CFAContract) (ts : Int) (idx : Option Nat) (r : Int)
    (hkey : KeyOnly H)
    (hself : ∀ (s : State) (t : Int),
      H.isFlowEqual (some (createdFlow H s event t)) event = .ok true)
    (hempty : H.isFlowEqual none event ≠ .ok true)
    (hzero : ∀ t rate, H.calculateFlowAmount t t rate = 0)
    (hts : cfaContract.getFlow event.token event.sender event.receiver = .ok ts)
    (hidx : findIndex (fun flow => H.isFlowEqual flow event) state.flows = .ok idx)
    (hr : event.flowRate = some r) (hpos : 0 < r) :
    ∃ flows', (updateFlows H state event cfaContract).result = .ok flows' ∧
      applyTwice H state event cfaContract = .ok flows' := by
  have hg := gtZero_of_pos hr hpos
  cases idx with
  | none =>
    have h1 := updateFlows_create_eq H state event cfaContract ts none hts hidx rfl
    refine ⟨_, h1, ?_⟩
    have hidx2 := findIndex_append_hit (fun flow => H.isFlowEqual flow event)
      (some (createdFlow H state event ts)) (hself state ts) state.flows hidx
    have h2 := updateFlows_update_eq H
      { state with flows := state.flows ++ [some (createdFlow H state event ts)] }
      event cfaContract ts state.flows.length (createdFlow H state event ts) hts hidx2
      (by simp) hg
    simp only [applyTwice, h1]
    rw [h2]
    simp [createdFlow, updatedFlow, hzero]
  | some i =>
    obtain ⟨x, hx, hpx⟩ := findIndex_some_get _ _ _ hidx
    cases x with
    | none => exact absurd hpx hempty
    | some prev =>
      have hlt : i < state.flows.length := (List.getElem?_eq_some.mp hx).1
      have h1 := updateFlows_update_eq H state event cfaContract ts i prev hts hidx hx hg
      refine ⟨_, h1, ?_⟩
      have hidx2 := findIndex_set_hit (fun flow => H.isFlowEqual flow event)
        (some (updatedFlow H prev event ts))
        (isFlowEqual_updated H hkey prev ts event event hpx) state.flows i hidx
      have h2 := updateFlows_update_eq H
        { state with flows := state.flows.set i (some (updatedFlow H prev event ts)) }
        event cfaContract ts i (updatedFlow H prev event ts) hts hidx2 (by simp [hlt]) hg
      simp only [applyTwice, h1]
      rw [h2]
      simp [updatedFlow]

/-- The event of Scenario B replayed on the ledger of Scenario A. -/
theorem updateFlows_replay_idempotent_witness :
    ∃ flows',
      (updateFlows specHelpers (ledgerState [some flowA]) (outgoingEvent (some 150))
        (cfaAt 1100)).result = .ok flows' ∧
      applyTwice specHelpers (ledgerState [some flowA]) (outgoingEvent (some 150))
        (cfaAt 1100) = .ok flows' :=
  updateFlows_replay_idempotent specHelpers (ledgerState [some flowA])
    (outgoingEvent (some 150)) (cfaAt 1100) 1100 (some 0) 150 keyOnly_specHelpers
    (by intro s t; simp [specHelpers, createdFlow])
    (by simp [specHelpers])
    (by intro t rate; simp [specHelpers])
    rfl rfl rfl (by decide)

/-- C5 (as stated) fails for a rate-0 event: on the ledger of Scenario C one application
empties the slot and the second one throws on the empty slot; and with no implementation
of the helpers that finds the flow does the second application give the ledger of the
first. -/
theorem updateFlows_replay_counterexample :
    (updateFlows specHelpers (ledgerState [some flowB]) (outgoingEvent (some 0))
      (cfaAt 1300)).result = .ok [none] ∧
    applyTwice specHelpers (ledgerState [some flowB]) (outgoingEvent (some 0)) (cfaAt 1300)
      = .error .typeError ∧
    ¬ ∃ H : Helpers,
      findIndex (fun flow => H.isFlowEqual flow (outgoingEvent (some 0)))
        (ledgerState [some flowB]).flows = .ok (some 0) ∧
      applyTwice H (ledgerState [some flowB]) (outgoingEvent (some 0)) (cfaAt 1300)
        = (updateFlows H (ledgerState [some flowB]) (outgoingEvent (some 0))
            (cfaAt 1300)).result := by
  refine ⟨rfl, rfl, ?_⟩
  rintro ⟨H, hidx, htwice⟩
  have h1 := updateFlows_delete_eq H (ledgerState [some flowB]) (outgoingEvent (some 0))
    (cfaAt 1300) 1300 0 flowB rfl hidx rfl rfl
  have hset : (ledgerState [some flowB]).flows.set 0 none = [none] := rfl
  rw [hset] at h1
  simp only [applyTwice, h1] at htwice
  cases hp : H.isFlowEqual none (outgoingEvent (some 0)) with
  | error e =>
    have h2 : (updateFlows H { ledgerState [some flowB] with flows := [none] }
        (outgoingEvent (some 0)) (cfaAt 1300)).result = .error e := by
      simp [updateFlows, bind, Eff.andThen, Eff.call, Eff.lift, cfaAt, findIndex, hp]
    rw [h2] at htwice
    cases htwice
  | ok b =>
    have hidx2 : findIndex (fun flow => H.isFlowEqual flow (outgoingEvent (some 0)))
        ({ ledgerState [some flowB] with flows := [none] } : State).flows
        = .ok (if b then some 0 else none) := by
      cases b <;> simp [findIndex, hp]
    have h2 := updateFlows_create_eq H { ledgerState [some flowB] with flows := [none] }
      (outgoingEvent (some 0)) (cfaAt 1300) 1300 _ rfl hidx2
      (by cases b <;> simp [slotAt])
    rw [h2] at htwice
    simp at htwice

/-- C6: in the update case (an entry `prev` matches at index `i`, rate `r > 0`, fetched
timestamp `ts`) the entry at index `i` of the result has rate `r`, `lastTimestamp = ts`
and the creation timestamp, entity, token and direction of `prev`; hence, when
`isFlowEqual` looks at the identity key only, no sequence of events with a rate above 0
that match the entry changes its creation timestamp or its identity. -/
theorem updateFlows_update_keeps_identity (H : Helpers) (state : State)
    (event : FlowUpdated) (cfaContract : CFAContract) (ts : Int) (i : Nat) (prev : Flow)
    (r : Int)
    (hts : cfaContract.getFlow event.token event.sender event.receiver = .ok ts)
    (hidx : findIndex (fun flow => H.isFlowEqual flow event) state.flows = .ok (some i))
    (hslot : state.flows[i]? = some (some prev))
    (hr : event.flowRate = some r) (hpos : 0 < r) :
    (∃ flows' f, (updateFlows H state event cfaContract).result = .ok flows' ∧
      flows'.length = state.flows.length ∧
      flows'[i]? = some (some f) ∧
      f.flowRate = some r ∧ f.lastTimestamp = ts ∧
      f.creationTimestamp = prev.creationTimestamp ∧ f.entity = prev.entity ∧
      f.superTokenAddress = prev.superTokenAddress ∧ f.isIncoming = prev.isIncoming) ∧
    (KeyOnly H → ∀ steps : List (FlowUpdated × CFAContract),
      (∀ p ∈ steps,
        (∃ t, p.2.getFlow p.1.token p.1.sender p.1.receiver = .ok t) ∧
        (∃ q, p.1.flowRate = some q ∧ 0 < q) ∧
        findIndex (fun flow => H.isFlowEqual flow p.1) state.flows = .ok (some i)) →
      ∃ flows' f, applyAll H state steps = .ok flows' ∧ flows'[i]? = some (some f) ∧
        f.creationTimestamp = prev.creationTimestamp ∧ f.entity = prev.entity ∧
        f.superTokenAddress = prev.superTokenAddress ∧ f.isIncoming = prev.isIncoming) := by
  have hlt : i < state.flows.length := (List.getElem?_eq_some.mp hslot).1
  constructor
  · refine ⟨_, updatedFlow H prev event ts,
      updateFlows_update_eq H state event cfaContract ts i prev hts hidx hslot
        (gtZero_of_pos hr hpos), ?_, ?_, ?_, rfl, rfl, rfl, rfl, rfl⟩
    · simp
    · simp [hlt]
    · simp [updatedFlow, hr]
  · intro hkey steps hall
    exact applyAll_keeps_identity H hkey i steps state prev hslot hall

/-- Scenario B on the code, and Scenario B followed by a further change of rate: the
creation timestamp stays 1000. -/
theorem updateFlows_update_keeps_identity_witness :
    (∃ flows' f,
      (updateFlows specHelpers (ledgerState [some flowA]) (outgoingEvent (some 150))
        (cfaAt 1100)).result = .ok flows' ∧
      flows'[0]? = some (some f) ∧ f.flowRate = some 150 ∧ f.lastTimestamp = 1100 ∧
      f.creationTimestamp = 1000 ∧ f.entity = "X" ∧ f.superTokenAddress = "T" ∧
      f.isIncoming = false) ∧
    (∃ flows' f,
      applyAll specHelpers (ledgerState [some flowA])
        [(outgoingEvent (some 150), cfaAt 1100), (outgoingEvent (some 200), cfaAt 1200)]
        = .ok flows' ∧
      flows'[0]? = some (some f) ∧ f.creationTimestamp = 1000) := by
  have h := updateFlows_update_keeps_identity specHelpers (ledgerState [some flowA])
    (outgoingEvent (some 150)) (cfaAt 1100) 1100 0 flowA 150 rfl rfl rfl rfl (by decide)
  obtain ⟨⟨flows', f, h1, _, h3, h4, h5, h6, h7, h8, h9⟩, hseq⟩ := h
  refine ⟨⟨flows', f, h1, h3, h4, h5, h6, h7, h8, h9⟩, ?_⟩
  obtain ⟨flows2, g, hg1, hg2, hg3, _⟩ := hseq keyOnly_specHelpers
    [(outgoingEvent (some 150), cfaAt 1100), (outgoingEvent (some 200), cfaAt 1200)]
    (by
      intro p hp
      simp only [List.mem_cons, List.mem_singleton, List.not_mem_nil, or_false] at hp
      rcases hp with rfl | rfl
      · exact ⟨⟨1100, rfl⟩, ⟨150, rfl, by decide⟩, rfl⟩
      · exact ⟨⟨1200, rfl⟩, ⟨200, rfl, by decide⟩, rfl⟩)
  exact ⟨flows2, g, hg1, hg2, hg3⟩

/-! ## The token registry -/

theorem findIndexB_some_get {α : Type} (p : α → Bool) :
    ∀ (xs : List α) (i : Nat), findIndexB p xs = some i →
      ∃ x, xs[i]? = some x ∧ p x = true := by
  intro xs
  induction xs with
  | nil => intro i h; simp [findIndexB] at h
  | cons x xs ih =>
    intro i h
    unfold findIndexB at h
    by_cases hx : p x = true
    · simp only [hx, if_true, Option.some.injEq] at h
      subst h
      exact ⟨x, by simp, hx⟩
    · cases hr : findIndexB p xs with
      | none => simp [hx, hr] at h
      | some j =>
        simp only [hx, hr, Bool.false_eq_true, if_false, Option.some.injEq] at h
        subst h
        obtain ⟨y, hy, hp⟩ := ih j hr
        exact ⟨y, by simpa using hy, hp⟩

theorem updateSuperTokens_seen (H : Helpers) (timing : Timing)
    (state : State) (tokenAddress : Address)
    (tokenContract : TokenContract) (netFlow : Option Int) (now : Int) (i : Nat)
    (old : SuperToken)
    (hidx : findIndexB (fun t => H.addressesEqual tokenAddress t.address) state.superTokens
      = some i)
    (hold : state.superTokens[i]? = some old) :
    updateSuperTokens H timing state tokenAddress tokenContract netFlow now =
      ⟨match tokenContract.balanceOf state.agentAddress with
       | .error e => .error e
       | .ok balance => .ok (state.superTokens.set i
           (upsertedToken old.toSuperTokenData tokenAddress now balance netFlow)),
       [Call.balanceOf state.agentAddress]⟩ := by
  cases hb : tokenContract.balanceOf state.agentAddress <;> cases netFlow <;>
    simp [updateSuperTokens, bind, pure, Eff.andThen, Eff.call, Eff.ret, hidx, hold, hb,
      upsertedToken]

theorem newSuperToken_calls (timing : Timing) (tokenContract : TokenContract) :
    (newSuperToken timing tokenContract).calls
      = [Call.name, Call.decimals, Call.symbol, Call.getUnderlyingToken] := by
  cases h1 : tokenContract.name <;> cases h2 : tokenContract.decimals <;>
    cases h3 : tokenContract.symbol <;> cases h4 : tokenContract.getUnderlyingToken <;>
    simp [newSuperToken, bind, pure, Eff.andThen, Eff.all, Eff.call, Eff.ret, h1, h2, h3, h4]

theorem newSuperToken_cases (timing : Timing) (tokenContract : TokenContract) :
    (metadataFailures tokenContract = [] ∧
      ∃ name decimals symbol underlyingToken,
        tokenContract.name = .ok name ∧ tokenContract.decimals = .ok decimals ∧
        tokenContract.symbol = .ok symbol ∧
        tokenContract.getUnderlyingToken = .ok underlyingToken ∧
        (newSuperToken timing tokenContract).result = .ok
          { decimals := decimals, name := name, symbol := symbol,
            underlyingToken := underlyingToken, netFlow := 0, balance := 0 }) ∨
    (∃ e ∈ metadataFailures tokenContract,
      (newSuperToken timing tokenContract).result = .error e) := by
  obtain ⟨b₁, b₂, b₃, b₄⟩ := timing
  cases h1 : tokenContract.name <;> cases h2 : tokenContract.decimals <;>
    cases h3 : tokenContract.symbol <;> cases h4 : tokenContract.getUnderlyingToken <;>
    cases b₁ <;> cases b₂ <;> cases b₃ <;>
    simp [newSuperToken, bind, pure, Eff.andThen, Eff.all, Eff.call, Eff.ret, h1, h2, h3, h4,
      metadataFailures, errorOf]

theorem updateSuperTokens_unseen (H : Helpers) (timing : Timing)
    (state : State) (tokenAddress : Address)
    (tokenContract : TokenContract) (netFlow : Option Int) (now : Int)
    (hidx : findIndexB (fun t => H.addressesEqual tokenAddress t.address) state.superTokens
      = none) :
    (updateSuperTokens H timing state tokenAddress tokenContract netFlow now).result =
      match (newSuperToken timing tokenContract).result with
      | .error e => .error e
      | .ok base =>
        match tokenContract.balanceOf state.agentAddress with
        | .error e => .error e
        | .ok balance => .ok (state.superTokens ++
            [upsertedToken base tokenAddress now balance netFlow]) := by
  cases hn : (newSuperToken timing tokenContract).result <;>
    cases hb : tokenContract.balanceOf state.agentAddress <;> cases netFlow <;>
    simp [updateSuperTokens, bind, pure, Eff.andThen, Eff.call, Eff.ret, hidx, hn, hb,
      upsertedToken]

theorem updateSuperTokens_cases (H : Helpers) (timing : Timing)
    (state : State) (tokenAddress : Address)
    (tokenContract : TokenContract) (netFlow : Option Int) (now : Int) :
    (tokenFetchFailures tokenContract state.agentAddress (unseen H state tokenAddress) = [] ∧
      ∃ tokens, (updateSuperTokens H timing state tokenAddress tokenContract netFlow now).result
        = .ok tokens) ∨
    (∃ e ∈ tokenFetchFailures tokenContract state.agentAddress (unseen H state tokenAddress),
      (updateSuperTokens H timing state tokenAddress tokenContract netFlow now).result = .error e) := by
  cases hidx : findIndexB (fun t => H.addressesEqual tokenAddress t.address)
      state.superTokens with
  | none =>
    have hu : unseen H state tokenAddress = true := by simp [unseen, hidx]
    rw [updateSuperTokens_unseen H timing state tokenAddress tokenContract netFlow now hidx]
    rcases newSuperToken_cases timing tokenContract with
      ⟨hm, n, d, sy, u, _, _, _, _, hres⟩ | ⟨e, he, hres⟩
    · cases hb : tokenContract.balanceOf state.agentAddress with
      | error e =>
        right
        exact ⟨e, by simp [tokenFetchFailures, hu, hm, hb, errorOf], by simp [hres]⟩
      | ok b =>
        left
        exact ⟨by simp [tokenFetchFailures, hu, hm, hb, errorOf], by simp [hres]⟩
    · right
      exact ⟨e, by simp [tokenFetchFailures, hu, he], by simp [hres]⟩
  | some i =>
    have hu : unseen H state tokenAddress = false := by simp [unseen, hidx]
    obtain ⟨old, hold, _⟩ := findIndexB_some_get _ _ _ hidx
    rw [updateSuperTokens_seen H timing state tokenAddress tokenContract
      netFlow now i old hidx hold]
    cases hb : tokenContract.balanceOf state.agentAddress with
    | error e =>
      right
      exact ⟨e, by simp [tokenFetchFailures, hu, hb, errorOf], rfl⟩
    | ok b =>
      left
      exact ⟨by simp [tokenFetchFailures, hu, hb, errorOf], _, rfl⟩

theorem updateFlows_fetch_error (H : Helpers) (state : State) (event : FlowUpdated)
    (cfaContract : CFAContract) (e : Error)
    (hts : cfaContract.getFlow event.token event.sender event.receiver = .error e) :
    (updateFlows H state event cfaContract).result = .error e := by
  simp [updateFlows, bind, Eff.andThen, Eff.call, hts]

theorem handleFlowUpdated_irrelevant (H : Helpers) (timing : Timing) (contracts : ContractCache)
    (state : State) (event : FlowUpdated) (app : App) (settings : Settings) (now : Int)
    (h : isAgentSender H state.agentAddress event.sender event.receiver = false) :
    handleFlowUpdated H timing contracts state event app settings now
      = ⟨⟨.ok state, []⟩, contracts⟩ := by
  simp [handleFlowUpdated, h, pure, Eff.ret]

theorem handleFlowUpdated_relevant (H : Helpers) (timing : Timing) (contracts : ContractCache)
    (state : State) (event : FlowUpdated) (app : App) (settings : Settings) (now : Int)
    (h : isAgentSender H state.agentAddress event.sender event.receiver = true) :
    (handleFlowUpdated H timing contracts state event app settings now).run.result =
      match (updateSuperTokens H timing state event.token (contractFor contracts event.token app)
          (observedNetFlow H state event) now).result,
        (updateFlows H state event settings.cfa).result with
      | .ok superTokens, .ok flows =>
        .ok { state with superTokens := superTokens, flows := flows }
      | .error e, .ok _ => .error e
      | .ok _, .error e => .error e
      | .error e₁, .error e₂ => .error (if timing.superTokensFirst then e₁ else e₂) := by
  simp only [handleFlowUpdated, h, Bool.not_true, Bool.false_eq_true, if_false, Eff.after,
    bind, pure, Eff.andThen, Eff.all, Eff.ret, contractFor, observedNetFlow]
  cases (updateSuperTokens H timing state event.token
      (getSuperTokenContract contracts event.token app).1
      (if H.addressesEqual state.agentAddress event.sender = true then event.totalSenderFlowRate
        else event.totalReceiverFlowRate) now).result <;>
    cases (updateFlows H state event settings.cfa).result <;> rfl

theorem handleVaultEvent_result (H : Helpers) (timing : Timing) (contracts : ContractCache)
    (state : State) (event : VaultEvent) (app : App) (now : Int) :
    (handleVaultEvent H timing contracts state event app now).run.result =
      match (updateSuperTokens H timing state event.token (contractFor contracts event.token app)
          none now).result with
      | .ok superTokens => .ok { state with superTokens := superTokens }
      | .error e => .error e := by
  simp only [handleVaultEvent, Eff.after, bind, pure, Eff.andThen, Eff.ret, contractFor]
  cases (updateSuperTokens H timing state event.token (getSuperTokenContract contracts event.token app).1
      none now).result <;> rfl

/-! ## The event reconciler -/

theorem updateFlows_lookup_error (H : Helpers) (state : State) (event : FlowUpdated)
    (cfaContract : CFAContract) (ts : Int) (e : Error)
    (hts : cfaContract.getFlow event.token event.sender event.receiver = .ok ts)
    (hidx : findIndex (fun flow => H.isFlowEqual flow event) state.flows = .error e) :
    (updateFlows H state event cfaContract).result = .error e := by
  simp [updateFlows, bind, Eff.andThen, Eff.call, Eff.lift, hts, hidx]

theorem updateFlows_returns (H : Helpers) (state : State) (event : FlowUpdated)
    (cfaContract : CFAContract) (ts : Int) (idx : Option Nat)
    (hts : cfaContract.getFlow event.token event.sender event.receiver = .ok ts)
    (hidx : findIndex (fun flow => H.isFlowEqual flow event) state.flows = .ok idx) :
    ∃ flows', (updateFlows H state event cfaContract).result = .ok flows' := by
  cases hs : slotAt state.flows idx with
  | none => exact ⟨_, updateFlows_create_eq H state event cfaContract ts idx hts hidx hs⟩
  | some prev =>
    cases idx with
    | none => simp [slotAt] at hs
    | some i =>
      obtain ⟨x, hx, _⟩ := findIndex_some_get _ _ _ hidx
      have hslot : state.flows[i]? = some (some prev) := by
        cases x with
        | none => simp [slotAt, hx] at hs
        | some y =>
          simp only [slotAt, hx, Option.join, Option.some_bind, id, Option.some.injEq] at hs
          rw [hx, hs]
      cases hg : gtZero event.flowRate with
      | true =>
        exact ⟨_, updateFlows_update_eq H state event cfaContract ts i prev hts hidx hslot hg⟩
      | false =>
        exact ⟨_, updateFlows_delete_eq H state event cfaContract ts i prev hts hidx hslot hg⟩

theorem updateFlows_result_cases (H : Helpers) (state : State) (event : FlowUpdated)
    (cfaContract : CFAContract) :
    (∃ e, cfaContract.getFlow event.token event.sender event.receiver = .error e ∧
      (updateFlows H state event cfaContract).result = .error e) ∨
    (∃ ts e, cfaContract.getFlow event.token event.sender event.receiver = .ok ts ∧
      findIndex (fun flow => H.isFlowEqual flow event) state.flows = .error e ∧
      (updateFlows H state event cfaContract).result = .error e) ∨
    (∃ ts idx flows, cfaContract.getFlow event.token event.sender event.receiver = .ok ts ∧
      findIndex (fun flow => H.isFlowEqual flow event) state.flows = .ok idx ∧
      (updateFlows H state event cfaContract).result = .ok flows) := by
  cases hts : cfaContract.getFlow event.token event.sender event.receiver with
  | error e => exact Or.inl ⟨e, rfl, updateFlows_fetch_error H state event cfaContract e hts⟩
  | ok ts =>
    cases hidx : findIndex (fun flow => H.isFlowEqual flow event) state.flows with
    | error e =>
      exact Or.inr (Or.inl ⟨ts, e, rfl, rfl,
        updateFlows_lookup_error H state event cfaContract ts e hts hidx⟩)
    | ok idx =>
      obtain ⟨flows, hres⟩ := updateFlows_returns H state event cfaContract ts idx hts hidx
      exact Or.inr (Or.inr ⟨ts, idx, flows, rfl, rfl, hres⟩)

theorem handleFlowUpdated_ok_inv (H : Helpers) (timing : Timing) (contracts : ContractCache)
    (state : State) (event : FlowUpdated) (app : App) (settings : Settings) (now : Int)
    (next : State)
    (hrel : isAgentSender H state.agentAddress event.sender event.receiver = true)
    (hnext : (handleFlowUpdated H timing contracts state event app settings now).run.result
      = .ok next) :
    ∃ superTokens flows,
      (updateSuperTokens H timing state event.token (contractFor contracts event.token app)
        (observedNetFlow H state event) now).result = .ok superTokens ∧
      (updateFlows H state event settings.cfa).result = .ok flows ∧
      next = { state with superTokens := superTokens, flows := flows } := by
  rw [handleFlowUpdated_relevant H timing contracts state event app settings now hrel] at hnext
  cases h1 : (updateSuperTokens H timing state event.token
      (contractFor contracts event.token app) (observedNetFlow H state event) now).result <;>
    cases h2 : (updateFlows H state event settings.cfa).result <;>
    simp only [h1, h2, Except.ok.injEq, reduceCtorEq] at hnext
  exact ⟨_, _, rfl, rfl, hnext.symm⟩

/-- C8 (amended): a reconciliation step of which a fetch fails yields a failure and no
snapshot. For `updateSuperTokens` (the metadata fetches of an unseen token, the balance
fetch) and for `handleVaultEvent`, the promise is rejected with the rejection of one of
the rejected fetches. For `handleFlowUpdated` on an event of the agent (the same fetches
and the flow timestamp fetch) the promise is rejected, whatever the timing of the
answers, and when the lookup of the ledger does not throw it is rejected with the
rejection of one of the rejected fetches. A state `handleFlowUpdated` returns is the
input state or has both `superTokens` and `flows` replaced. -/
theorem reconciliation_fails_atomically (H : Helpers) (timing : Timing)
    (contracts : ContractCache) (state : State) (app : App) (settings : Settings)
    (now : Int) :
    (∀ (tokenAddress : Address) (tokenContract : TokenContract) (netFlow : Option Int),
      tokenFetchFailures tokenContract state.agentAddress (unseen H state tokenAddress) ≠ [] →
      ∃ e ∈ tokenFetchFailures tokenContract state.agentAddress (unseen H state tokenAddress),
        (updateSuperTokens H timing state tokenAddress tokenContract netFlow now).result
          = .error e) ∧
    (∀ event : FlowUpdated,
      isAgentSender H state.agentAddress event.sender event.receiver = true →
      tokenFetchFailures (contractFor contracts event.token app) state.agentAddress
          (unseen H state event.token) ++
        errorOf (settings.cfa.getFlow event.token event.sender event.receiver) ≠ [] →
      (∃ e, (handleFlowUpdated H timing contracts state event app settings now).run.result
        = .error e) ∧
      ((∃ idx, findIndex (fun flow => H.isFlowEqual flow event) state.flows = .ok idx) →
        ∃ e ∈ tokenFetchFailures (contractFor contracts event.token app) state.agentAddress
              (unseen H state event.token) ++
            errorOf (settings.cfa.getFlow event.token event.sender event.receiver),
          (handleFlowUpdated H timing contracts state event app settings now).run.result
            = .error e)) ∧
    (∀ event : VaultEvent,
      tokenFetchFailures (contractFor contracts event.token app) state.agentAddress
          (unseen H state event.token) ≠ [] →
      ∃ e ∈ tokenFetchFailures (contractFor contracts event.token app) state.agentAddress
            (unseen H state event.token),
        (handleVaultEvent H timing contracts state event app now).run.result = .error e) ∧
    (∀ (event : FlowUpdated) (next : State),
      (handleFlowUpdated H timing contracts state event app settings now).run.result
        = .ok next →
      next = state ∨
      ∃ superTokens flows,
        (updateSuperTokens H timing state event.token (contractFor contracts event.token app)
          (observedNetFlow H state event) now).result = .ok superTokens ∧
        (updateFlows H state event settings.cfa).result = .ok flows ∧
        next = { state with superTokens := superTokens, flows := flows }) := by
  refine ⟨?_, ?_, ?_, ?_⟩
  · intro tokenAddress tokenContract netFlow hne
    rcases updateSuperTokens_cases H timing state tokenAddress tokenContract netFlow now with
      ⟨hnil, _⟩ | h
    · exact absurd hnil hne
    · exact h
  · intro event hrel hne
    rw [handleFlowUpdated_relevant H timing contracts state event app settings now hrel]
    rcases updateSuperTokens_cases H timing state event.token
      (contractFor contracts event.token app) (observedNetFlow H state event) now with
      ⟨hnil, tokens, hres⟩ | ⟨e₁, he₁, hres⟩
    · -- the registry update returns, so the flow timestamp fetch is the one that fails
      cases hts : settings.cfa.getFlow event.token event.sender event.receiver with
      | ok ts => simp [hnil, hts, errorOf] at hne
      | error e₂ =>
        have hflows := updateFlows_fetch_error H state event settings.cfa e₂ hts
        refine ⟨⟨e₂, by rw [hres, hflows]⟩, fun _ => ⟨e₂, by simp [errorOf], ?_⟩⟩
        rw [hres, hflows]
    · rcases updateFlows_result_cases H state event settings.cfa with
        ⟨e₂, hts, hflows⟩ | ⟨ts, e₂, _, hidx, hflows⟩ | ⟨ts, idx, flows, _, _, hflows⟩
      · refine ⟨⟨_, by rw [hres, hflows]⟩, fun _ => ?_⟩
        cases timing.superTokensFirst with
        | true => exact ⟨e₁, List.mem_append_left _ he₁, by rw [hres, hflows]; rfl⟩
        | false =>
          exact ⟨e₂, List.mem_append_right _ (by simp [hts, errorOf]),
            by rw [hres, hflows]; rfl⟩
      · refine ⟨⟨_, by rw [hres, hflows]⟩, ?_⟩
        rintro ⟨idx, hok⟩
        rw [hidx] at hok
        cases hok
      · exact ⟨⟨e₁, by rw [hres, hflows]⟩,
          fun _ => ⟨e₁, List.mem_append_left _ he₁, by rw [hres, hflows]⟩⟩
  · intro event hne
    rw [handleVaultEvent_result]
    rcases updateSuperTokens_cases H timing state event.token
      (contractFor contracts event.token app) none now with ⟨hnil, _⟩ | ⟨e, he, hres⟩
    · exact absurd hnil hne
    · exact ⟨e, he, by rw [hres]⟩
  · intro event next hnext
    cases hrel : isAgentSender H state.agentAddress event.sender event.receiver with
    | false =>
      rw [handleFlowUpdated_irrelevant H timing contracts state event app settings now hrel]
        at hnext
      simp only [Except.ok.injEq] at hnext
      exact Or.inl hnext.symm
    | true =>
      exact Or.inr (handleFlowUpdated_ok_inv H timing contracts state event app settings now
        next hrel hnext)

/-- With a token contract whose `balanceOf` is rejected, the three steps are rejected with
that failure, here on a ledger whose lookup does not throw. -/
theorem reconciliation_fails_atomically_witness :
    (updateSuperTokens specHelpers flowsFirst registryState "T" tokenDown none 5000).result
      = .error (.rejected "balanceOf") ∧
    (handleFlowUpdated specHelpers flowsFirst [] registryState (outgoingEvent (some 150))
      appDown (settingsAt 1100) 5000).run.result = .error (.rejected "balanceOf") ∧
    (handleVaultEvent specHelpers flowsFirst [] registryState ⟨"T"⟩ appDown 5000).run.result
      = .error (.rejected "balanceOf") := by
  obtain ⟨h1, h2, h3, _⟩ :=
    reconciliation_fails_atomically specHelpers flowsFirst [] registryState appDown
      (settingsAt 1100) 5000
  have hlist : tokenFetchFailures tokenDown registryState.agentAddress
      (unseen specHelpers registryState "T") = [.rejected "balanceOf"] := rfl
  have hlist2 : tokenFetchFailures (contractFor [] "T" appDown) registryState.agentAddress
      (unseen specHelpers registryState "T") = [.rejected "balanceOf"] := rfl
  refine ⟨?_, ?_, ?_⟩
  · obtain ⟨e, he, hres⟩ := h1 "T" tokenDown none (by rw [hlist]; simp)
    rw [hlist] at he
    simp only [List.mem_singleton] at he
    rw [hres, he]
  · obtain ⟨_, hfetch⟩ := h2 (outgoingEvent (some 150)) rfl (by
      show tokenFetchFailures (contractFor [] "T" appDown) registryState.agentAddress
        (unseen specHelpers registryState "T") ++ _ ≠ []
      rw [hlist2]; simp)
    obtain ⟨e, he, hres⟩ := hfetch ⟨some 0, rfl⟩
    have he' : e ∈ [Error.rejected "balanceOf"] := he
    simp only [List.mem_singleton] at he'
    rw [hres, he']
  · obtain ⟨e, he, hres⟩ := h3 ⟨"T"⟩ (by
      show tokenFetchFailures (contractFor [] "T" appDown) registryState.agentAddress
        (unseen specHelpers registryState "T") ≠ []
      rw [hlist2]; simp)
    have he' : e ∈ [Error.rejected "balanceOf"] := he
    simp only [List.mem_singleton] at he'
    rw [hres, he']

/-- C8 (as stated) fails: the token is unseen, `balanceOf` is rejected, the flow timestamp
is answered and the ledger holds an empty slot, on which the lookup of `updateFlows`
throws. When the ledger update settles first, `handleFlowUpdated` is rejected with the
exception of the lookup, which is not the failure of the fetch that failed. -/
theorem reconciliation_failure_counterexample :
    tokenFetchFailures (contractFor [] "T" appDown) (ledgerState [none]).agentAddress
        (unseen specHelpers (ledgerState [none]) "T") ++
      errorOf ((settingsAt 1100).cfa.getFlow "T" "agent" "X")
      = [.rejected "balanceOf"] ∧
    (handleFlowUpdated specHelpers flowsFirst [] (ledgerState [none])
      (outgoingEvent (some 150)) appDown (settingsAt 1100) 5000).run.result
      = .error .typeError ∧
    ¬ ∃ e ∈ tokenFetchFailures (contractFor [] "T" appDown) (ledgerState [none]).agentAddress
          (unseen specHelpers (ledgerState [none]) "T") ++
        errorOf ((settingsAt 1100).cfa.getFlow "T" "agent" "X"),
      (handleFlowUpdated specHelpers flowsFirst [] (ledgerState [none])
        (outgoingEvent (some 150)) appDown (settingsAt 1100) 5000).run.result = .error e := by
  have hlist : tokenFetchFailures (contractFor [] "T" appDown)
      (ledgerState [none]).agentAddress (unseen specHelpers (ledgerState [none]) "T") ++
      errorOf ((settingsAt 1100).cfa.getFlow "T" "agent" "X")
      = [.rejected "balanceOf"] := rfl
  have hres : (handleFlowUpdated specHelpers flowsFirst [] (ledgerState [none])
      (outgoingEvent (some 150)) appDown (settingsAt 1100) 5000).run.result
      = .error .typeError := rfl
  refine ⟨hlist, hres, ?_⟩
  rintro ⟨e, he, h⟩
  rw [hlist] at he
  simp only [List.mem_singleton] at he
  rw [hres, he] at h
  cases h

/-- C9: a `FlowUpdated` event whose sender and receiver both differ from the agent leaves
the state, the contract cache and the outside world as they are: the handler returns the
input state and makes no external call. When the agent is the sender or the receiver, the
handler returns a state exactly when `updateSuperTokens` and `updateFlows` both return,
and that state is the input state with `superTokens` and `flows` replaced by their
results. -/
theorem handleFlowUpdated_passthrough (H : Helpers) (timing : Timing) (contracts : ContractCache)
    (state : State) (event : FlowUpdated) (app : App) (settings : Settings) (now : Int) :
    (H.addressesEqual state.agentAddress event.sender = false →
      H.addressesEqual state.agentAddress event.receiver = false →
      handleFlowUpdated H timing contracts state event app settings now
        = ⟨⟨.ok state, []⟩, contracts⟩) ∧
    (H.addressesEqual state.agentAddress event.sender = true ∨
        H.addressesEqual state.agentAddress event.receiver = true →
      (∀ superTokens flows,
        (updateSuperTokens H timing state event.token (contractFor contracts event.token app)
          (observedNetFlow H state event) now).result = .ok superTokens →
        (updateFlows H state event settings.cfa).result = .ok flows →
        (handleFlowUpdated H timing contracts state event app settings now).run.result
          = .ok { state with superTokens := superTokens, flows := flows }) ∧
      (∀ next,
        (handleFlowUpdated H timing contracts state event app settings now).run.result = .ok next →
        ∃ superTokens flows,
          (updateSuperTokens H timing state event.token (contractFor contracts event.token app)
            (observedNetFlow H state event) now).result = .ok superTokens ∧
          (updateFlows H state event settings.cfa).result = .ok flows ∧
          next.superTokens = superTokens ∧ next.flows = flows ∧
          next.agentAddress = state.agentAddress ∧ next.others = state.others)) := by
  constructor
  · intro hs hr
    exact handleFlowUpdated_irrelevant H timing contracts state event app settings now
      (by simp [isAgentSender, hs, hr])
  · intro hrel
    have hrel' : isAgentSender H state.agentAddress event.sender event.receiver = true := by
      rcases hrel with h | h <;> simp [isAgentSender, h]
    constructor
    · intro superTokens flows h1 h2
      rw [handleFlowUpdated_relevant H timing contracts state event app settings now hrel', h1, h2]
    · intro next hnext
      obtain ⟨superTokens, flows, h1, h2, hnext'⟩ :=
        handleFlowUpdated_ok_inv H timing contracts state event app settings now next hrel'
          hnext
      subst hnext'
      exact ⟨superTokens, flows, h1, h2, rfl, rfl, rfl, rfl⟩

/-- An event between two strangers is passed through without a call, and the event of
Scenario B updates both the registry and the ledger. -/
theorem handleFlowUpdated_passthrough_witness :
    handleFlowUpdated specHelpers inOrder [] registryState strangerEvent appUp (settingsAt 1100) 5000
      = ⟨⟨.ok registryState, []⟩, []⟩ ∧
    (handleFlowUpdated specHelpers inOrder [] registryState (outgoingEvent (some 150)) appUp
      (settingsAt 1100) 5000).run.result
      = .ok { registryState with
          superTokens := [entryV, { entryT with
            balance := 1000, netFlow := 150, lastUpdateTimestamp := 5000 }]
          flows := [some { flowB with accumulatedAmount := 15000 }] } := by
  constructor
  · exact (handleFlowUpdated_passthrough specHelpers inOrder [] registryState strangerEvent appUp
      (settingsAt 1100) 5000).1 rfl rfl
  · exact ((handleFlowUpdated_passthrough specHelpers inOrder [] registryState
      (outgoingEvent (some 150)) appUp (settingsAt 1100) 5000).2 (Or.inl rfl)).1 _ _ rfl rfl

/-- C10: when its fetches succeed, `handleVaultEvent` for the token `T` returns a state
with the flows, the agent address and every other property of the input; every registry
entry whose address is not `T` stays as and where it was; when an entry for `T` existed,
the registry keeps its length, the entries at the other indices are unchanged, and the
entry for `T` is the former one (net flow, name, symbol, decimals and underlying token
included) with the balance fetched and the current time; when none existed, one entry is
added at the end. -/
theorem handleVaultEvent_frame (H : Helpers) (timing : Timing) (contracts : ContractCache)
    (state : State)
    (event : VaultEvent) (app : App) (now : Int)
    (hok : tokenFetchFailures (contractFor contracts event.token app) state.agentAddress
      (unseen H state event.token) = []) :
    ∃ next, (handleVaultEvent H timing contracts state event app now).run.result = .ok next ∧
      next.flows = state.flows ∧ next.agentAddress = state.agentAddress ∧
      next.others = state.others ∧
      (∀ (j : Nat) (t : SuperToken), state.superTokens[j]? = some t →
        H.addressesEqual event.token t.address = false → next.superTokens[j]? = some t) ∧
      (∀ (i : Nat) (old : SuperToken),
        findIndexB (fun t => H.addressesEqual event.token t.address) state.superTokens
          = some i →
        state.superTokens[i]? = some old →
        next.superTokens.length = state.superTokens.length ∧
        (∀ j : Nat, j ≠ i → next.superTokens[j]? = state.superTokens[j]?) ∧
        ∃ balance,
          (contractFor contracts event.token app).balanceOf state.agentAddress
            = .ok balance ∧
          next.superTokens[i]? = some { old with
            address := event.token, lastUpdateTimestamp := now, balance := balance }) ∧
      (findIndexB (fun t => H.addressesEqual event.token t.address) state.superTokens = none →
        ∃ added, next.superTokens = state.superTokens ++ [added]) := by
  rw [handleVaultEvent_result]
  cases hidx : findIndexB (fun t => H.addressesEqual event.token t.address)
      state.superTokens with
  | none =>
    have hu : unseen H state event.token = true := by simp [unseen, hidx]
    rw [updateSuperTokens_unseen H timing state event.token _ none now hidx]
    simp only [tokenFetchFailures, hu, if_true, List.append_eq_nil] at hok
    rcases newSuperToken_cases timing (contractFor contracts event.token app) with
      ⟨_, n, d, sy, u, _, _, _, _, hres⟩ | ⟨e, he, _⟩
    · cases hb : (contractFor contracts event.token app).balanceOf state.agentAddress with
      | error e => simp [hb, errorOf] at hok
      | ok b =>
        refine ⟨{ state with superTokens := state.superTokens ++
            [upsertedToken ⟨d, n, sy, u, 0, 0⟩ event.token now b none] },
          by rw [hres], rfl, rfl, rfl, ?_, ?_, ?_⟩
        · intro j t hj _
          have hlt : j < state.superTokens.length := (List.getElem?_eq_some.mp hj).1
          simp [List.getElem?_append_left hlt, hj]
        · intro i old h
          cases h
        · intro _
          exact ⟨_, rfl⟩
    · rw [hok.1] at he
      cases he
  | some i =>
    have hu : unseen H state event.token = false := by simp [unseen, hidx]
    obtain ⟨x, hx, hpx⟩ := findIndexB_some_get _ _ _ hidx
    have hlt : i < state.superTokens.length := (List.getElem?_eq_some.mp hx).1
    rw [updateSuperTokens_seen H timing state event.token _ none now i x hidx hx]
    cases hb : (contractFor contracts event.token app).balanceOf state.agentAddress with
    | error e => simp [tokenFetchFailures, hu, hb, errorOf] at hok
    | ok b =>
      refine ⟨_, rfl, rfl, rfl, rfl, ?_, ?_, ?_⟩
      · intro j t hj hne
        have hji : i ≠ j := by
          intro h
          subst h
          rw [hx] at hj
          cases hj
          rw [hpx] at hne
          cases hne
        simp [List.getElem?_set, hji, hj]
      · intro i' old h hold
        cases h
        rw [hx] at hold
        cases hold
        refine ⟨by simp, ?_, b, rfl, ?_⟩
        · intro j hj
          simp [List.getElem?_set, Ne.symm hj]
        · simp [hlt, upsertedToken]
      · intro h
        cases h

/-- A vault event for `T` on a registry that holds `T` at index 1: the flows and the entry
at index 0 are unchanged, the entry at index 1 keeps its net flow. -/
theorem handleVaultEvent_frame_witness :
    ∃ next, (handleVaultEvent specHelpers inOrder [] registryState ⟨"T"⟩ appUp 5000).run.result
        = .ok next ∧
      next.flows = [some flowA] ∧ next.superTokens[0]? = some entryV ∧
      next.superTokens[1]? = some { entryT with balance := 1000, lastUpdateTimestamp := 5000 } ∧
      next.superTokens.length = 2 := by
  obtain ⟨next, h, hf, _, _, hother, hsame, _⟩ :=
    handleVaultEvent_frame specHelpers inOrder [] registryState ⟨"T"⟩ appUp 5000 rfl
  obtain ⟨hlen, _, b, hb, hentry⟩ := hsame 1 entryT rfl rfl
  have hb' : b = 1000 := by
    have : (Except.ok 1000 : Except Error Int) = .ok b := hb
    cases this
    rfl
  subst hb'
  exact ⟨next, h, hf, hother 0 entryV rfl rfl, hentry, hlen⟩

/-! ## The contract cache -/

theorem mapSet_of_mapGet (key : Address) (value : TokenContract) :
    ∀ cache : ContractCache, mapGet cache key = some value → mapSet cache key value = cache := by
  intro cache
  induction cache with
  | nil => intro h; simp [mapGet] at h
  | cons kv rest ih =>
    obtain ⟨k, v⟩ := kv
    intro h
    unfold mapGet at h
    unfold mapSet
    by_cases hk : k = key
    · simp only [hk, if_true, Option.some.injEq] at h
      simp [hk, h]
    · simp only [hk, if_false] at h
      simp [hk, ih h]

theorem mapGet_mapSet_same (key : Address) (value : TokenContract) :
    ∀ cache : ContractCache, mapGet (mapSet cache key value) key = some value := by
  intro cache
  induction cache with
  | nil => simp [mapSet, mapGet]
  | cons kv rest ih =>
    obtain ⟨k, v⟩ := kv
    unfold mapSet
    by_cases hk : k = key
    · simp [hk, mapGet]
    · simp [hk, mapGet, ih]

theorem mapGet_mapSet_other (key other : Address) (value : TokenContract) (h : other ≠ key) :
    ∀ cache : ContractCache, mapGet (mapSet cache key value) other = mapGet cache other := by
  intro cache
  induction cache with
  | nil => simp [mapSet, mapGet, Ne.symm h]
  | cons kv rest ih =>
    obtain ⟨k, v⟩ := kv
    unfold mapSet
    by_cases hk : k = key
    · subst hk
      simp [mapGet, Ne.symm h]
    · by_cases ho : k = other
      · subst ho
        simp [h, mapGet]
      · simp [hk, mapGet, ho, ih]

theorem getSuperTokenContract_hit (contracts : ContractCache) (tokenAddress : Address)
    (app : App) (cached : TokenContract) (h : mapGet contracts tokenAddress = some cached) :
    getSuperTokenContract contracts tokenAddress app = (cached, contracts, []) := by
  simp [getSuperTokenContract, h, mapSet_of_mapGet tokenAddress cached contracts h]

theorem getSuperTokenContract_miss (contracts : ContractCache) (tokenAddress : Address)
    (app : App) (h : mapGet contracts tokenAddress = none) :
    getSuperTokenContract contracts tokenAddress app =
      (app.external tokenAddress, mapSet contracts tokenAddress (app.external tokenAddress),
        [Call.external tokenAddress]) := by
  simp [getSuperTokenContract, h]

theorem getSuperTokenContract_get (contracts : ContractCache) (tokenAddress : Address)
    (app : App) :
    mapGet (getSuperTokenContract contracts tokenAddress app).2.1 tokenAddress
      = some (getSuperTokenContract contracts tokenAddress app).1 := by
  cases h : mapGet contracts tokenAddress with
  | none =>
    rw [getSuperTokenContract_miss contracts tokenAddress app h]
    exact mapGet_mapSet_same _ _ _
  | some cached =>
    rw [getSuperTokenContract_hit contracts tokenAddress app cached h]
    exact h

theorem getSuperTokenContract_other (contracts : ContractCache) (tokenAddress other : Address)
    (app : App) (hne : other ≠ tokenAddress) :
    mapGet (getSuperTokenContract contracts tokenAddress app).2.1 other
      = mapGet contracts other := by
  cases h : mapGet contracts tokenAddress with
  | none =>
    rw [getSuperTokenContract_miss contracts tokenAddress app h]
    exact mapGet_mapSet_other _ _ _ hne _
  | some cached =>
    rw [getSuperTokenContract_hit contracts tokenAddress app cached h]

theorem count_external_singleton_ne (a address : Address) (hne : a ≠ address) :
    List.count (Call.external address) [Call.external a] = 0 := by
  apply List.count_eq_zero.mpr
  simp [Ne.symm hne]

/-- Once an address is a key of the cache, no later call constructs a handle for it. -/
theorem getSuperTokenContracts_count_of_key (app : App) (address : Address) :
    ∀ (addresses : List Address) (contracts : ContractCache),
      mapGet contracts address ≠ none →
      (getSuperTokenContracts app contracts addresses).2.count (Call.external address) = 0 := by
  intro addresses
  induction addresses with
  | nil => intro contracts _; simp [getSuperTokenContracts]
  | cons a rest ih =>
    intro contracts hkey
    simp only [getSuperTokenContracts, List.count_append]
    have hkey' : mapGet (getSuperTokenContract contracts a app).2.1 address ≠ none := by
      by_cases ha : address = a
      · subst ha
        rw [getSuperTokenContract_get]
        simp
      · rw [getSuperTokenContract_other contracts a address app ha]
        exact hkey
    rw [ih _ hkey']
    cases h : mapGet contracts a with
    | some cached =>
      rw [getSuperTokenContract_hit contracts a app cached h]
      simp
    | none =>
      rw [getSuperTokenContract_miss contracts a app h]
      have hne : a ≠ address := by
        intro hEq
        subst hEq
        exact hkey h
      exact count_external_singleton_ne a address hne

theorem getSuperTokenContracts_count_le (app : App) (address : Address) :
    ∀ (addresses : List Address) (contracts : ContractCache),
      (getSuperTokenContracts app contracts addresses).2.count (Call.external address) ≤ 1 := by
  intro addresses
  induction addresses with
  | nil => intro contracts; simp [getSuperTokenContracts]
  | cons a rest ih =>
    intro contracts
    simp only [getSuperTokenContracts, List.count_append]
    cases h : mapGet contracts a with
    | some cached =>
      rw [getSuperTokenContract_hit contracts a app cached h]
      simpa using ih contracts
    | none =>
      by_cases ha : a = address
      · subst ha
        have hkey : mapGet (getSuperTokenContract contracts a app).2.1 a ≠ none := by
          rw [getSuperTokenContract_get]
          simp
        rw [getSuperTokenContracts_count_of_key app a rest _ hkey,
          getSuperTokenContract_miss contracts a app h]
        simp
      · rw [getSuperTokenContract_miss contracts a app h]
        have := ih (mapSet contracts a (app.external a))
        rw [count_external_singleton_ne a address ha]
        simpa using this

/-- C18: `getSuperTokenContract` calls `app.external` exactly when the address is not a
key of the cache, and then for that address only; when the address is a key it returns
the cached handle and leaves the cache as it was; after the call the cache maps the
address to the handle returned and every other key to what it mapped to before; hence a
sequence of calls constructs at most one handle for an address. -/
theorem getSuperTokenContract_cache (contracts : ContractCache) (tokenAddress : Address)
    (app : App) :
    ((getSuperTokenContract contracts tokenAddress app).2.2 ≠ [] ↔
      mapGet contracts tokenAddress = none) ∧
    (mapGet contracts tokenAddress = none →
      (getSuperTokenContract contracts tokenAddress app).2.2 = [Call.external tokenAddress] ∧
      (getSuperTokenContract contracts tokenAddress app).1 = app.external tokenAddress) ∧
    (∀ cached, mapGet contracts tokenAddress = some cached →
      getSuperTokenContract contracts tokenAddress app = (cached, contracts, [])) ∧
    mapGet (getSuperTokenContract contracts tokenAddress app).2.1 tokenAddress
      = some (getSuperTokenContract contracts tokenAddress app).1 ∧
    (∀ other, other ≠ tokenAddress →
      mapGet (getSuperTokenContract contracts tokenAddress app).2.1 other
        = mapGet contracts other) ∧
    (∀ (addresses : List Address) (address : Address),
      (getSuperTokenContracts app contracts addresses).2.count (Call.external address) ≤ 1) := by
  refine ⟨?_, ?_, ?_, getSuperTokenContract_get contracts tokenAddress app, ?_, ?_⟩
  · cases h : mapGet contracts tokenAddress with
    | none => simp [getSuperTokenContract_miss contracts tokenAddress app h]
    | some cached => simp [getSuperTokenContract_hit contracts tokenAddress app cached h]
  · intro h
    simp [getSuperTokenContract_miss contracts tokenAddress app h]
  · intro cached h
    exact getSuperTokenContract_hit contracts tokenAddress app cached h
  · intro other hne
    exact getSuperTokenContract_other contracts tokenAddress other app hne
  · intro addresses address
    exact getSuperTokenContracts_count_le app address addresses contracts

/-- On a cache that holds `T`: a call for `T` constructs nothing and leaves the cache, a
call for `W` constructs the handle of `W`, and the calls for `W`, `T`, `W` construct one
handle. -/
theorem getSuperTokenContract_cache_witness :
    (getSuperTokenContract cacheT "T" appUp).2.1 = cacheT ∧
    (getSuperTokenContract cacheT "T" appUp).2.2 = [] ∧
    (getSuperTokenContract cacheT "W" appUp).2.2 = [Call.external "W"] ∧
    mapGet (getSuperTokenContract cacheT "W" appUp).2.1 "T" = mapGet cacheT "T" ∧
    (getSuperTokenContracts appUp cacheT ["W", "T", "W"]).2 = [Call.external "W"] := by
  obtain ⟨_, hmiss, hhit, _, hother, _⟩ := getSuperTokenContract_cache cacheT "W" appUp
  obtain ⟨_, _, hhitT, _, _, _⟩ := getSuperTokenContract_cache cacheT "T" appUp
  have hT := hhitT tokenT rfl
  refine ⟨by rw [hT], by rw [hT], (hmiss rfl).1, hother "T" (by decide), rfl⟩

/-! ## The registry entry written by `updateSuperTokens` -/

theorem findIndexB_eq_none_iff {α : Type} (p : α → Bool) :
    ∀ xs : List α, findIndexB p xs = none ↔ ∀ x ∈ xs, p x = false := by
  intro xs
  induction xs with
  | nil => simp [findIndexB]
  | cons x xs ih =>
    unfold findIndexB
    by_cases hx : p x = true
    · simp [hx]
    · have hx' : p x = false := by simpa using hx
      cases hr : findIndexB p xs with
      | none =>
        have := ih.mp hr
        simp only [hx', Bool.false_eq_true, if_false, List.mem_cons, forall_eq_or_imp,
          true_and, true_iff]
        exact this
      | some j =>
        have hne : ¬ ∀ y ∈ xs, p y = false := fun h => by
          rw [ih.mpr h] at hr
          cases hr
        simp only [hx', Bool.false_eq_true, if_false, List.mem_cons, forall_eq_or_imp,
          true_and]
        constructor
        · intro h
          cases h
        · intro h
          exact absurd h hne

theorem updateSuperTokens_unseen_calls (H : Helpers) (timing : Timing)
    (state : State) (tokenAddress : Address)
    (tokenContract : TokenContract) (netFlow : Option Int) (now : Int)
    (hidx : findIndexB (fun t => H.addressesEqual tokenAddress t.address) state.superTokens
      = none) :
    (updateSuperTokens H timing state tokenAddress tokenContract netFlow now).calls =
      [Call.name, Call.decimals, Call.symbol, Call.getUnderlyingToken] ++
        match (newSuperToken timing tokenContract).result with
        | .ok _ => [Call.balanceOf state.agentAddress]
        | .error _ => [] := by
  have hc := newSuperToken_calls timing tokenContract
  cases hn : (newSuperToken timing tokenContract).result <;>
    cases hb : tokenContract.balanceOf state.agentAddress <;> cases netFlow <;>
    simp [updateSuperTokens, bind, pure, Eff.andThen, Eff.call, Eff.ret, hidx, hn, hb, hc]

/-- C11: when its fetches succeed, `updateSuperTokens` returns a registry whose entry for
the address (at the index of the former entry, or at the end when the address was
unseen) has the address, the balance `balanceOf(agentAddress)` answered and the current
time as `lastUpdateTimestamp`; its net flow is the one passed when one is passed, and
otherwise the net flow of the former entry, or 0 when the address was unseen. -/
theorem updateSuperTokens_dynamic_fields (H : Helpers) (timing : Timing) (state : State)
    (tokenAddress : Address) (tokenContract : TokenContract) (netFlow : Option Int)
    (now balance : Int)
    (hmeta : unseen H state tokenAddress = true → metadataFailures tokenContract = [])
    (hbalance : tokenContract.balanceOf state.agentAddress = .ok balance) :
    ∃ tokens, (updateSuperTokens H timing state tokenAddress tokenContract netFlow now).result
        = .ok tokens ∧
      (∀ (i : Nat) (old : SuperToken),
        findIndexB (fun t => H.addressesEqual tokenAddress t.address) state.superTokens
          = some i →
        state.superTokens[i]? = some old →
        ∃ entry, tokens[i]? = some entry ∧ entry.address = tokenAddress ∧
          entry.balance = balance ∧ entry.lastUpdateTimestamp = now ∧
          (∀ n, netFlow = some n → entry.netFlow = n) ∧
          (netFlow = none → entry.netFlow = old.netFlow)) ∧
      (findIndexB (fun t => H.addressesEqual tokenAddress t.address) state.superTokens = none →
        ∃ entry, tokens = state.superTokens ++ [entry] ∧ entry.address = tokenAddress ∧
          entry.balance = balance ∧ entry.lastUpdateTimestamp = now ∧
          (∀ n, netFlow = some n → entry.netFlow = n) ∧
          (netFlow = none → entry.netFlow = 0)) := by
  cases hidx : findIndexB (fun t => H.addressesEqual tokenAddress t.address)
      state.superTokens with
  | none =>
    have hm := hmeta (by simp [unseen, hidx])
    rw [updateSuperTokens_unseen H timing state tokenAddress tokenContract netFlow now hidx]
    rcases newSuperToken_cases timing tokenContract with
      ⟨_, n, d, sy, u, _, _, _, _, hres⟩ | ⟨e, he, _⟩
    · refine ⟨state.superTokens ++
          [upsertedToken ⟨d, n, sy, u, 0, 0⟩ tokenAddress now balance netFlow],
        by rw [hres, hbalance], ?_, ?_⟩
      · intro i old h
        cases h
      · intro _
        refine ⟨_, rfl, rfl, rfl, rfl, ?_, ?_⟩
        · intro m hm'
          simp [upsertedToken, hm']
        · intro hm'
          simp [upsertedToken, hm']
    · rw [hm] at he
      cases he
  | some i =>
    obtain ⟨x, hx, _⟩ := findIndexB_some_get _ _ _ hidx
    have hlt : i < state.superTokens.length := (List.getElem?_eq_some.mp hx).1
    rw [updateSuperTokens_seen H timing state tokenAddress tokenContract netFlow now i x hidx hx]
    refine ⟨state.superTokens.set i
        (upsertedToken x.toSuperTokenData tokenAddress now balance netFlow),
      by simp [hbalance], ?_, ?_⟩
    · intro i' old h hold
      cases h
      rw [hx] at hold
      cases hold
      refine ⟨upsertedToken x.toSuperTokenData tokenAddress now balance netFlow,
        by simp [hlt], rfl, rfl, rfl, ?_, ?_⟩
      · intro m hm'
        simp [upsertedToken, hm']
      · intro hm'
        simp [upsertedToken, hm']
    · intro h
      cases h

/-- The entry of `T` after a vault event keeps its net flow -10; an unseen token gets the
net flow 0 without one passed and the net flow passed otherwise. -/
theorem updateSuperTokens_dynamic_fields_witness :
    (∃ tokens entry, (updateSuperTokens specHelpers inOrder registryState "T" tokenT none 5000).result
        = .ok tokens ∧ tokens[1]? = some entry ∧ entry.balance = 1000 ∧
        entry.lastUpdateTimestamp = 5000 ∧ entry.netFlow = -10) ∧
    (∃ entry, (updateSuperTokens specHelpers inOrder registryState "Z" tokenT none 5000).result
        = .ok (registryState.superTokens ++ [entry]) ∧ entry.balance = 1000 ∧
        entry.netFlow = 0) ∧
    (∃ entry, (updateSuperTokens specHelpers inOrder registryState "Z" tokenT (some 7) 5000).result
        = .ok (registryState.superTokens ++ [entry]) ∧ entry.netFlow = 7) := by
  refine ⟨?_, ?_, ?_⟩
  · obtain ⟨tokens, h, hseen, _⟩ := updateSuperTokens_dynamic_fields specHelpers inOrder registryState
      "T" tokenT none 5000 1000 (fun _ => rfl) rfl
    obtain ⟨entry, h1, _, h3, h4, _, h6⟩ := hseen 1 entryT rfl rfl
    exact ⟨tokens, entry, h, h1, h3, h4, h6 rfl⟩
  · obtain ⟨tokens, h, _, hnew⟩ := updateSuperTokens_dynamic_fields specHelpers inOrder registryState
      "Z" tokenT none 5000 1000 (fun _ => rfl) rfl
    obtain ⟨entry, h1, _, h3, _, _, h6⟩ := hnew rfl
    exact ⟨entry, by rw [h, h1], h3, h6 rfl⟩
  · obtain ⟨tokens, h, _, hnew⟩ := updateSuperTokens_dynamic_fields specHelpers inOrder registryState
      "Z" tokenT (some 7) 5000 1000 (fun _ => rfl) rfl
    obtain ⟨entry, h1, _, _, _, h5, _⟩ := hnew rfl
    exact ⟨entry, by rw [h, h1], h5 7 rfl⟩

/-- C12: `updateSuperTokens` makes metadata fetches exactly when no entry of the registry
has an address equal to the token address, and then each of `name`, `decimals`, `symbol`
and `getUnderlyingToken` once; the new entry carries the metadata fetched and is added at
the end. When an entry exists, the only external call is `balanceOf`, and the entry at
the index of the former one has its name, symbol, decimals and underlying token. -/
theorem updateSuperTokens_metadata_once (H : Helpers) (timing : Timing) (state : State)
    (tokenAddress : Address) (tokenContract : TokenContract) (netFlow : Option Int)
    (now : Int) :
    ((∃ c ∈ (updateSuperTokens H timing state tokenAddress tokenContract netFlow now).calls,
        c.isMetadata = true) ↔
      ∀ t ∈ state.superTokens, H.addressesEqual tokenAddress t.address = false) ∧
    ((∀ t ∈ state.superTokens, H.addressesEqual tokenAddress t.address = false) →
      (updateSuperTokens H timing state tokenAddress tokenContract netFlow now).calls.filter
          Call.isMetadata
        = [Call.name, Call.decimals, Call.symbol, Call.getUnderlyingToken] ∧
      ∀ name decimals symbol underlyingToken balance,
        tokenContract.name = .ok name → tokenContract.decimals = .ok decimals →
        tokenContract.symbol = .ok symbol →
        tokenContract.getUnderlyingToken = .ok underlyingToken →
        tokenContract.balanceOf state.agentAddress = .ok balance →
        ∃ entry, (updateSuperTokens H timing state tokenAddress tokenContract netFlow now).result
            = .ok (state.superTokens ++ [entry]) ∧
          entry.name = name ∧ entry.decimals = decimals ∧ entry.symbol = symbol ∧
          entry.underlyingToken = underlyingToken) ∧
    ((∃ t ∈ state.superTokens, H.addressesEqual tokenAddress t.address = true) →
      ∃ (i : Nat) (old : SuperToken),
        findIndexB (fun t => H.addressesEqual tokenAddress t.address) state.superTokens
          = some i ∧
        state.superTokens[i]? = some old ∧
        H.addressesEqual tokenAddress old.address = true ∧
        (updateSuperTokens H timing state tokenAddress tokenContract netFlow now).calls
          = [Call.balanceOf state.agentAddress] ∧
        ∀ balance, tokenContract.balanceOf state.agentAddress = .ok balance →
          ∃ tokens entry,
            (updateSuperTokens H timing state tokenAddress tokenContract netFlow now).result
              = .ok tokens ∧
            tokens.length = state.superTokens.length ∧ tokens[i]? = some entry ∧
            entry.name = old.name ∧ entry.symbol = old.symbol ∧
            entry.decimals = old.decimals ∧
            entry.underlyingToken = old.underlyingToken) := by
  have hseen : ∀ (i : Nat),
      findIndexB (fun t => H.addressesEqual tokenAddress t.address) state.superTokens
        = some i →
      ∃ old : SuperToken, state.superTokens[i]? = some old ∧
        H.addressesEqual tokenAddress old.address = true ∧
        (updateSuperTokens H timing state tokenAddress tokenContract netFlow now).calls
          = [Call.balanceOf state.agentAddress] ∧
        ∀ balance, tokenContract.balanceOf state.agentAddress = .ok balance →
          ∃ tokens entry,
            (updateSuperTokens H timing state tokenAddress tokenContract netFlow now).result
              = .ok tokens ∧
            tokens.length = state.superTokens.length ∧ tokens[i]? = some entry ∧
            entry.name = old.name ∧ entry.symbol = old.symbol ∧
            entry.decimals = old.decimals ∧
            entry.underlyingToken = old.underlyingToken := by
    intro i hidx
    obtain ⟨old, hold, hp⟩ := findIndexB_some_get _ _ _ hidx
    have hlt : i < state.superTokens.length := (List.getElem?_eq_some.mp hold).1
    refine ⟨old, hold, hp, ?_, ?_⟩
    · rw [updateSuperTokens_seen H timing state tokenAddress tokenContract netFlow now i old hidx hold]
    · intro balance hb
      rw [updateSuperTokens_seen H timing state tokenAddress tokenContract
        netFlow now i old hidx hold]
      exact ⟨state.superTokens.set i
          (upsertedToken old.toSuperTokenData tokenAddress now balance netFlow),
        upsertedToken old.toSuperTokenData tokenAddress now balance netFlow,
        by simp [hb], by simp, by simp [hlt], rfl, rfl, rfl, rfl⟩
  have hcalls : ∀ (_ : findIndexB (fun t => H.addressesEqual tokenAddress t.address)
        state.superTokens = none),
      (updateSuperTokens H timing state tokenAddress tokenContract netFlow now).calls.filter
          Call.isMetadata
        = [Call.name, Call.decimals, Call.symbol, Call.getUnderlyingToken] := by
    intro hidx
    rw [updateSuperTokens_unseen_calls H timing state tokenAddress tokenContract netFlow now hidx]
    cases (newSuperToken timing tokenContract).result <;> simp [Call.isMetadata]
  refine ⟨?_, ?_, ?_⟩
  · rw [← findIndexB_eq_none_iff]
    cases hidx : findIndexB (fun t => H.addressesEqual tokenAddress t.address)
        state.superTokens with
    | none =>
      simp only [iff_true]
      have hmem : Call.name ∈
          (updateSuperTokens H timing state tokenAddress tokenContract netFlow now).calls.filter
            Call.isMetadata := by
        rw [hcalls hidx]
        simp
      exact ⟨Call.name, (List.mem_filter.mp hmem).1, rfl⟩
    | some i =>
      obtain ⟨old, _, _, hc, _⟩ := hseen i hidx
      rw [hc]
      simp [Call.isMetadata]
  · intro hall
    have hidx := (findIndexB_eq_none_iff _ _).mpr hall
    refine ⟨hcalls hidx, ?_⟩
    intro name decimals symbol underlyingToken balance h1 h2 h3 h4 hb
    rw [updateSuperTokens_unseen H timing state tokenAddress tokenContract netFlow now hidx]
    rcases newSuperToken_cases timing tokenContract with
      ⟨_, n, d, sy, u, e1, e2, e3, e4, hres⟩ | ⟨e, he, _⟩
    · rw [h1] at e1
      rw [h2] at e2
      rw [h3] at e3
      rw [h4] at e4
      cases e1
      cases e2
      cases e3
      cases e4
      exact ⟨upsertedToken ⟨decimals, name, symbol, underlyingToken, 0, 0⟩ tokenAddress now
        balance netFlow, by rw [hres, hb], rfl, rfl, rfl, rfl⟩
    · simp [metadataFailures, h1, h2, h3, h4, errorOf] at he
  · rintro ⟨t, ht, hp⟩
    cases hidx : findIndexB (fun t => H.addressesEqual tokenAddress t.address)
        state.superTokens with
    | none =>
      have := (findIndexB_eq_none_iff _ _).mp hidx t ht
      simp only at this
      rw [hp] at this
      cases this
    | some i =>
      obtain ⟨old, h1, h2, h3, h4⟩ := hseen i hidx
      exact ⟨i, old, rfl, h1, h2, h3, h4⟩

/-- For the token `T` of the registry the only call is `balanceOf` and the entry keeps
its metadata at index 1; for an unseen token the four metadata fetches are made and the
entry added carries their answers. -/
theorem updateSuperTokens_metadata_once_witness :
    (updateSuperTokens specHelpers inOrder registryState "T" tokenT none 5000).calls
      = [Call.balanceOf "agent"] ∧
    (∃ tokens entry, (updateSuperTokens specHelpers inOrder registryState "T" tokenT none 5000).result
        = .ok tokens ∧ tokens[1]? = some entry ∧ entry.name = "Super T" ∧
        entry.decimals = 18) ∧
    (updateSuperTokens specHelpers inOrder registryState "Z" tokenT none 5000).calls.filter
        Call.isMetadata
      = [Call.name, Call.decimals, Call.symbol, Call.getUnderlyingToken] ∧
    (∃ entry, (updateSuperTokens specHelpers inOrder registryState "Z" tokenT none 5000).result
        = .ok (registryState.superTokens ++ [entry]) ∧ entry.name = "Super T" ∧
        entry.underlyingToken = "U") := by
  obtain ⟨_, _, hseen⟩ :=
    updateSuperTokens_metadata_once specHelpers inOrder registryState "T" tokenT none 5000
  obtain ⟨_, hnew, _⟩ :=
    updateSuperTokens_metadata_once specHelpers inOrder registryState "Z" tokenT none 5000
  obtain ⟨i, old, hi, hold, _, hcalls, hentry⟩ := hseen ⟨entryT, by simp [registryState], rfl⟩
  have hi1 : i = 1 := by
    have h : findIndexB (fun t => specHelpers.addressesEqual "T" t.address)
        registryState.superTokens = some 1 := rfl
    rw [h] at hi
    cases hi
    rfl
  subst hi1
  have hold' : old = entryT := by
    have h : registryState.superTokens[1]? = some entryT := rfl
    rw [h] at hold
    cases hold
    rfl
  subst hold'
  obtain ⟨tokens, entry, h1, _, h3, h4, _, h6, _⟩ := hentry 1000 rfl
  obtain ⟨hfilter, hfresh⟩ := hnew (by
    intro t ht
    simp only [registryState, List.mem_cons, List.mem_singleton, List.not_mem_nil,
      or_false] at ht
    rcases ht with rfl | rfl <;> rfl)
  obtain ⟨entry2, g1, g2, _, _, g5⟩ := hfresh "Super T" 18 "STx" "U" 1000 rfl rfl rfl rfl rfl
  exact ⟨hcalls, ⟨tokens, entry, h1, h3, h4, h6⟩, hfilter, ⟨entry2, g1, g2, g5⟩⟩

/-! ## Uniqueness of the addresses of the registry -/

/-- The registry `updateSuperTokens` returns when its fetches succeed. -/
theorem updateSuperTokens_shape (H : Helpers) (timing : Timing)
    (state : State) (tokenAddress : Address)
    (tokenContract : TokenContract) (netFlow : Option Int) (now : Int)
    (hok : tokenFetchFailures tokenContract state.agentAddress (unseen H state tokenAddress)
      = []) :
    (∃ (i : Nat) (old : SuperToken) (balance : Int),
      findIndexB (fun t => H.addressesEqual tokenAddress t.address) state.superTokens
        = some i ∧
      state.superTokens[i]? = some old ∧
      H.addressesEqual tokenAddress old.address = true ∧
      (updateSuperTokens H timing state tokenAddress tokenContract netFlow now).result = .ok
        (state.superTokens.set i
          (upsertedToken old.toSuperTokenData tokenAddress now balance netFlow))) ∨
    ((∀ t ∈ state.superTokens, H.addressesEqual tokenAddress t.address = false) ∧
      ∃ (base : SuperTokenData) (balance : Int),
        (updateSuperTokens H timing state tokenAddress tokenContract netFlow now).result = .ok
          (state.superTokens ++ [upsertedToken base tokenAddress now balance netFlow])) := by
  cases hidx : findIndexB (fun t => H.addressesEqual tokenAddress t.address)
      state.superTokens with
  | none =>
    right
    have hu : unseen H state tokenAddress = true := by simp [unseen, hidx]
    simp only [tokenFetchFailures, hu, if_true, List.append_eq_nil] at hok
    refine ⟨(findIndexB_eq_none_iff _ _).mp hidx, ?_⟩
    rw [updateSuperTokens_unseen H timing state tokenAddress tokenContract netFlow now hidx]
    rcases newSuperToken_cases timing tokenContract with
      ⟨_, n, d, sy, u, _, _, _, _, hres⟩ | ⟨e, he, _⟩
    · cases hb : tokenContract.balanceOf state.agentAddress with
      | error e => simp [hb, errorOf] at hok
      | ok b => exact ⟨⟨d, n, sy, u, 0, 0⟩, b, by rw [hres]⟩
    · rw [hok.1] at he
      cases he
  | some i =>
    left
    have hu : unseen H state tokenAddress = false := by simp [unseen, hidx]
    obtain ⟨old, hold, hp⟩ := findIndexB_some_get _ _ _ hidx
    cases hb : tokenContract.balanceOf state.agentAddress with
    | error e => simp [tokenFetchFailures, hu, hb, errorOf] at hok
    | ok b =>
      refine ⟨i, old, b, rfl, hold, hp, ?_⟩
      rw [updateSuperTokens_seen H timing state tokenAddress tokenContract
        netFlow now i old hidx hold]
      simp [hb]

theorem getElem?_set_self_eq {α : Type} (xs : List α) (i : Nat) (x y : α)
    (h : (xs.set i x)[i]? = some y) : y = x := by
  by_cases hlt : i < xs.length
  · simp [hlt] at h
    exact h.symm
  · simp [List.getElem?_eq_none (by simpa using hlt : (xs.set i x).length ≤ i)] at h

theorem uniqueAddresses_set (H : Helpers)
    (hsymm : ∀ a b, H.addressesEqual a b = H.addressesEqual b a)
    (htrans : ∀ a b c, H.addressesEqual a b = true → H.addressesEqual b c = true →
      H.addressesEqual a c = true)
    (tokens : List SuperToken) (i : Nat) (old entry : SuperToken)
    (huniq : UniqueAddresses H tokens) (hold : tokens[i]? = some old)
    (haddr : H.addressesEqual entry.address old.address = true) :
    UniqueAddresses H (tokens.set i entry) := by
  intro a b s t hs ht hst
  by_cases ha : a = i
  · by_cases hb : b = i
    · rw [ha, hb]
    · subst ha
      have hs' := getElem?_set_self_eq tokens a entry s hs
      subst hs'
      rw [List.getElem?_set_ne (Ne.symm hb)] at ht
      have h1 : H.addressesEqual old.address s.address = true := by
        rw [hsymm]; exact haddr
      exact huniq a b old t hold ht (htrans _ _ _ h1 hst)
  · by_cases hb : b = i
    · subst hb
      have ht' := getElem?_set_self_eq tokens b entry t ht
      subst ht'
      rw [List.getElem?_set_ne (Ne.symm ha)] at hs
      exact huniq a b s old hs hold (htrans _ _ _ hst haddr)
    · rw [List.getElem?_set_ne (Ne.symm ha)] at hs
      rw [List.getElem?_set_ne (Ne.symm hb)] at ht
      exact huniq a b s t hs ht hst

theorem getElem?_append_singleton_cases {α : Type} (xs : List α) (x y : α) (a : Nat)
    (h : (xs ++ [x])[a]? = some y) :
    (a < xs.length ∧ xs[a]? = some y) ∨ (a = xs.length ∧ y = x) := by
  by_cases hlt : a < xs.length
  · left
    rw [List.getElem?_append_left hlt] at h
    exact ⟨hlt, h⟩
  · right
    have hge : xs.length ≤ a := Nat.le_of_not_lt hlt
    rw [List.getElem?_append_right hge] at h
    have hz : a - xs.length = 0 := by
      by_contra hne
      have : [x][a - xs.length]? = none := by
        apply List.getElem?_eq_none
        simp
        omega
      rw [this] at h
      cases h
    rw [hz] at h
    simp at h
    exact ⟨by omega, h.symm⟩

theorem uniqueAddresses_append (H : Helpers)
    (hsymm : ∀ a b, H.addressesEqual a b = H.addressesEqual b a)
    (tokens : List SuperToken) (entry : SuperToken)
    (huniq : UniqueAddresses H tokens)
    (hnone : ∀ t ∈ tokens, H.addressesEqual entry.address t.address = false) :
    UniqueAddresses H (tokens ++ [entry]) := by
  intro a b s t hs ht hst
  rcases getElem?_append_singleton_cases tokens entry s a hs with ⟨_, hs'⟩ | ⟨ha, hse⟩
  · rcases getElem?_append_singleton_cases tokens entry t b ht with ⟨_, ht'⟩ | ⟨_, hte⟩
    · exact huniq a b s t hs' ht' hst
    · subst hte
      have hmem : s ∈ tokens := List.getElem?_mem hs'
      have := hnone s hmem
      rw [hsymm, hst] at this
      cases this
  · rcases getElem?_append_singleton_cases tokens entry t b ht with ⟨_, ht'⟩ | ⟨hb, _⟩
    · subst hse
      have hmem : t ∈ tokens := List.getElem?_mem ht'
      have := hnone t hmem
      rw [hst] at this
      cases this
    · rw [ha, hb]

/-- C14: when `addressesEqual` is symmetric and transitive and no two entries of the
registry have equal addresses, the registry `updateSuperTokens` returns (it returns one
whenever its fetches succeed) has no two entries with equal addresses either; it has the
length of the input when an entry for the address existed and one entry more when none
did; and every index of the input still holds an entry, the former one or the one
written for the address. -/
theorem updateSuperTokens_unique_addresses (H : Helpers) (timing : Timing) (state : State)
    (tokenAddress : Address) (tokenContract : TokenContract) (netFlow : Option Int)
    (now : Int)
    (hsymm : ∀ a b, H.addressesEqual a b = H.addressesEqual b a)
    (htrans : ∀ a b c, H.addressesEqual a b = true → H.addressesEqual b c = true →
      H.addressesEqual a c = true)
    (huniq : UniqueAddresses H state.superTokens)
    (hok : tokenFetchFailures tokenContract state.agentAddress (unseen H state tokenAddress)
      = []) :
    ∃ tokens, (updateSuperTokens H timing state tokenAddress tokenContract netFlow now).result
        = .ok tokens ∧
      UniqueAddresses H tokens ∧
      ((∃ t ∈ state.superTokens, H.addressesEqual tokenAddress t.address = true) →
        tokens.length = state.superTokens.length) ∧
      ((∀ t ∈ state.superTokens, H.addressesEqual tokenAddress t.address = false) →
        tokens.length = state.superTokens.length + 1) ∧
      (∀ (i : Nat) (old : SuperToken), state.superTokens[i]? = some old →
        ∃ entry, tokens[i]? = some entry ∧
          (entry = old ∨
            (entry.address = tokenAddress ∧
              H.addressesEqual tokenAddress old.address = true))) := by
  rcases updateSuperTokens_shape H timing state tokenAddress tokenContract netFlow now hok with
    ⟨i, old, balance, hidx, hold, hp, hres⟩ | ⟨hnone, base, balance, hres⟩
  · have hlt : i < state.superTokens.length := (List.getElem?_eq_some.mp hold).1
    refine ⟨_, hres, ?_, ?_, ?_, ?_⟩
    · exact uniqueAddresses_set H hsymm htrans state.superTokens i old _ huniq hold hp
    · intro _
      simp
    · intro hall
      have := hall old (List.getElem?_mem hold)
      rw [hp] at this
      cases this
    · intro j t hj
      by_cases hji : j = i
      · subst hji
        rw [hold] at hj
        cases hj
        exact ⟨upsertedToken old.toSuperTokenData tokenAddress now balance netFlow,
          by simp [hlt], Or.inr ⟨rfl, hp⟩⟩
      · exact ⟨t, by rw [List.getElem?_set_ne (Ne.symm hji)]; exact hj, Or.inl rfl⟩
  · refine ⟨_, hres, ?_, ?_, ?_, ?_⟩
    · exact uniqueAddresses_append H hsymm state.superTokens _ huniq hnone
    · rintro ⟨t, ht, hp⟩
      rw [hnone t ht] at hp
      cases hp
    · intro _
      simp
    · intro j t hj
      have hlt : j < state.superTokens.length := (List.getElem?_eq_some.mp hj).1
      exact ⟨t, by rw [List.getElem?_append_left hlt]; exact hj, Or.inl rfl⟩

theorem uniqueAddresses_registryState : UniqueAddresses specHelpers registryState.superTokens := by
  intro i j s t hs ht h
  rcases i with _ | _ | i <;> rcases j with _ | _ | j <;>
    simp [registryState] at hs ht
  all_goals first
    | rfl
    | (subst hs; subst ht; simp [specHelpers, entryV, entryT] at h)

/-- The registry of two tokens updated for `T` keeps its length 2, and updated for the
unseen `Z` gets the length 3; both results have no two entries with equal addresses. -/
theorem updateSuperTokens_unique_addresses_witness :
    (∃ tokens, (updateSuperTokens specHelpers inOrder registryState "T" tokenT none 5000).result
        = .ok tokens ∧ UniqueAddresses specHelpers tokens ∧ tokens.length = 2) ∧
    (∃ tokens, (updateSuperTokens specHelpers inOrder registryState "Z" tokenT none 5000).result
        = .ok tokens ∧ UniqueAddresses specHelpers tokens ∧ tokens.length = 3) := by
  have hsymm : ∀ a b, specHelpers.addressesEqual a b = specHelpers.addressesEqual b a := by
    intro a b
    by_cases h : a = b
    · subst h
      rfl
    · have h' : ¬ b = a := fun e => h e.symm
      simp [specHelpers, h, h']
  have htrans : ∀ a b c, specHelpers.addressesEqual a b = true →
      specHelpers.addressesEqual b c = true → specHelpers.addressesEqual a c = true := by
    intro a b c h1 h2
    simp only [specHelpers, beq_iff_eq] at h1 h2 ⊢
    rw [h1, h2]
  constructor
  · obtain ⟨tokens, h, hu, hlen, _, _⟩ := updateSuperTokens_unique_addresses specHelpers inOrder
      registryState "T" tokenT none 5000 hsymm htrans uniqueAddresses_registryState rfl
    exact ⟨tokens, h, hu, hlen ⟨entryT, by simp [registryState], rfl⟩⟩
  · obtain ⟨tokens, h, hu, _, hlen, _⟩ := updateSuperTokens_unique_addresses specHelpers inOrder
      registryState "Z" tokenT none 5000 hsymm htrans uniqueAddresses_registryState rfl
    refine ⟨tokens, h, hu, hlen ?_⟩
    intro t ht
    simp only [registryState, List.mem_cons, List.mem_singleton, List.not_mem_nil,
      or_false] at ht
    rcases ht with rfl | rfl <;> rfl

/-! ## Uniqueness of the identity keys of the ledger -/

theorem findIndex_none_all {α : Type} (p : α → Except Error Bool) :
    ∀ xs : List α, findIndex p xs = .ok none → ∀ x ∈ xs, p x = .ok false := by
  intro xs
  induction xs with
  | nil => intro _ x hx; cases hx
  | cons y ys ih =>
    intro h x hx
    unfold findIndex at h
    cases hy : p y with
    | error e => simp [hy] at h
    | ok b =>
      cases b with
      | true => simp [hy] at h
      | false =>
        simp only [hy] at h
        cases hr : findIndex p ys with
        | error e => simp [hr] at h
        | ok r =>
          cases r with
          | some j => simp [hr] at h
          | none =>
            rcases List.mem_cons.mp hx with rfl | hmem
            · exact hy
            · exact ih hr x hmem

/-- The ledger `updateFlows` returns, by cases. -/
theorem updateFlows_shape (H : Helpers) (state : State) (event : FlowUpdated)
    (cfaContract : CFAContract) (flows' : List (Option Flow))
    (hres : (updateFlows H state event cfaContract).result = .ok flows') :
    ∃ (ts : Int) (idx : Option Nat),
      cfaContract.getFlow event.token event.sender event.receiver = .ok ts ∧
      findIndex (fun flow => H.isFlowEqual flow event) state.flows = .ok idx ∧
      ((slotAt state.flows idx = none ∧
          flows' = state.flows ++ [some (createdFlow H state event ts)]) ∨
        (∃ (i : Nat) (prev : Flow), idx = some i ∧ state.flows[i]? = some (some prev) ∧
          ((gtZero event.flowRate = true ∧
              flows' = state.flows.set i (some (updatedFlow H prev event ts))) ∨
            (gtZero event.flowRate = false ∧ flows' = state.flows.set i none)))) := by
  cases hts : cfaContract.getFlow event.token event.sender event.receiver with
  | error e =>
    rw [updateFlows_fetch_error H state event cfaContract e hts] at hres
    cases hres
  | ok ts =>
    cases hidx : findIndex (fun flow => H.isFlowEqual flow event) state.flows with
    | error e =>
      rw [updateFlows_lookup_error H state event cfaContract ts e hts hidx] at hres
      cases hres
    | ok idx =>
      refine ⟨ts, idx, rfl, rfl, ?_⟩
      cases hs : slotAt state.flows idx with
      | none =>
        left
        rw [updateFlows_create_eq H state event cfaContract ts idx hts hidx hs] at hres
        cases hres
        exact ⟨rfl, rfl⟩
      | some prev =>
        right
        cases idx with
        | none => simp [slotAt] at hs
        | some i =>
          obtain ⟨x, hx, _⟩ := findIndex_some_get _ _ _ hidx
          have hslot : state.flows[i]? = some (some prev) := by
            cases x with
            | none => simp [slotAt, hx] at hs
            | some y =>
              simp only [slotAt, hx, Option.join, Option.some_bind, id,
                Option.some.injEq] at hs
              rw [hx, hs]
          refine ⟨i, prev, rfl, hslot, ?_⟩
          cases hg : gtZero event.flowRate with
          | true =>
            left
            rw [updateFlows_update_eq H state event cfaContract ts i prev hts hidx hslot hg]
              at hres
            cases hres
            exact ⟨rfl, rfl⟩
          | false =>
            right
            rw [updateFlows_delete_eq H state event cfaContract ts i prev hts hidx hslot hg]
              at hres
            cases hres
            exact ⟨rfl, rfl⟩

theorem uniqueKeys_set_some (flows : List (Option Flow)) (i : Nat) (prev next : Flow)
    (huniq : UniqueKeys flows) (hprev : flows[i]? = some (some prev))
    (hkey : next.key = prev.key) : UniqueKeys (flows.set i (some next)) := by
  intro a b f g hf hg hfg
  by_cases ha : a = i
  · by_cases hb : b = i
    · rw [ha, hb]
    · subst ha
      have hf' := getElem?_set_self_eq flows a (some next) (some f) hf
      cases hf'
      rw [List.getElem?_set_ne (Ne.symm hb)] at hg
      exact huniq a b prev g hprev hg (by rw [← hkey]; exact hfg)
  · by_cases hb : b = i
    · subst hb
      have hg' := getElem?_set_self_eq flows b (some next) (some g) hg
      cases hg'
      rw [List.getElem?_set_ne (Ne.symm ha)] at hf
      exact huniq a b f prev hf hprev (by rw [← hkey]; exact hfg)
    · rw [List.getElem?_set_ne (Ne.symm ha)] at hf
      rw [List.getElem?_set_ne (Ne.symm hb)] at hg
      exact huniq a b f g hf hg hfg

theorem uniqueKeys_set_none (flows : List (Option Flow)) (i : Nat)
    (huniq : UniqueKeys flows) : UniqueKeys (flows.set i none) := by
  intro a b f g hf hg hfg
  have ha : a ≠ i := by
    intro h
    subst h
    have := getElem?_set_self_eq flows a none (some f) hf
    cases this
  have hb : b ≠ i := by
    intro h
    subst h
    have := getElem?_set_self_eq flows b none (some g) hg
    cases this
  rw [List.getElem?_set_ne (Ne.symm ha)] at hf
  rw [List.getElem?_set_ne (Ne.symm hb)] at hg
  exact huniq a b f g hf hg hfg

theorem uniqueKeys_append (flows : List (Option Flow)) (next : Flow)
    (huniq : UniqueKeys flows)
    (hfresh : ∀ f, some f ∈ flows → f.key ≠ next.key) :
    UniqueKeys (flows ++ [some next]) := by
  intro a b f g hf hg hfg
  rcases getElem?_append_singleton_cases flows (some next) (some f) a hf with
    ⟨_, hf'⟩ | ⟨ha, hfe⟩
  · rcases getElem?_append_singleton_cases flows (some next) (some g) b hg with
      ⟨_, hg'⟩ | ⟨_, hge⟩
    · exact huniq a b f g hf' hg' hfg
    · cases hge
      exact absurd hfg (hfresh f (List.getElem?_mem hf'))
  · rcases getElem?_append_singleton_cases flows (some next) (some g) b hg with
      ⟨_, hg'⟩ | ⟨hb, _⟩
    · cases hfe
      exact absurd hfg.symm (hfresh g (List.getElem?_mem hg'))
    · rw [ha, hb]

/-- One application of `updateFlows` keeps the identity keys of the ledger distinct. -/
theorem updateFlows_keeps_unique (H : Helpers) (hmatch : MatchesKey H)
    (hempty : RejectsEmpty H) (state : State) (event : FlowUpdated)
    (cfaContract : CFAContract) (flows' : List (Option Flow))
    (huniq : UniqueKeys state.flows)
    (hres : (updateFlows H state event cfaContract).result = .ok flows') :
    UniqueKeys flows' := by
  obtain ⟨ts, idx, _, hidx, hcase⟩ := updateFlows_shape H state event cfaContract flows' hres
  rcases hcase with ⟨hs, rfl⟩ | ⟨i, prev, _, hprev, ⟨_, rfl⟩ | ⟨_, rfl⟩⟩
  · have hnone : idx = none := by
      cases idx with
      | none => rfl
      | some i =>
        obtain ⟨x, hx, hpx⟩ := findIndex_some_get _ _ _ hidx
        cases x with
        | none => exact absurd hpx (hempty event)
        | some y => simp [slotAt, hx] at hs
    subst hnone
    apply uniqueKeys_append state.flows _ huniq
    intro f hf hkey
    have h1 := findIndex_none_all _ _ hidx (some f) hf
    have h2 := hmatch f state event ts hkey
    simp only at h1
    rw [h2] at h1
    cases h1
  · exact uniqueKeys_set_some state.flows i prev _ huniq hprev rfl
  · exact uniqueKeys_set_none state.flows i huniq

theorem applyAll_keeps_unique (H : Helpers) (hmatch : MatchesKey H) (hempty : RejectsEmpty H) :
    ∀ (steps : List (FlowUpdated × CFAContract)) (state : State)
      (flows' : List (Option Flow)),
      UniqueKeys state.flows → applyAll H state steps = .ok flows' → UniqueKeys flows' := by
  intro steps
  induction steps with
  | nil =>
    intro state flows' huniq h
    simp only [applyAll, Except.ok.injEq] at h
    rw [← h]
    exact huniq
  | cons step rest ih =>
    intro state flows' huniq h
    obtain ⟨event, cfaContract⟩ := step
    simp only [applyAll] at h
    cases hres : (updateFlows H state event cfaContract).result with
    | error e => simp [hres] at h
    | ok flows1 =>
      simp only [hres] at h
      exact ih { state with flows := flows1 } flows'
        (updateFlows_keeps_unique H hmatch hempty state event cfaContract flows1 huniq hres) h

theorem matchesKey_specHelpers : MatchesKey specHelpers := by
  intro f state event ts hkey
  simp only [Flow.key, createdFlow, specHelpers, Prod.mk.injEq] at hkey
  obtain ⟨h1, h2, h3⟩ := hkey
  simp [specHelpers, h1, h2, h3]

theorem rejectsEmpty_specHelpers : RejectsEmpty specHelpers := by
  intro event
  simp [specHelpers]

theorem uniqueKeys_nil : UniqueKeys [] := by
  intro i j f g hf
  simp at hf

/-- C13: when `isFlowEqual` holds of the flows that have the identity key of the event
and of no empty slot, `updateFlows` keeps the identity keys of the present entries
distinct: on a ledger without two entries of the same key it returns (whenever the
timestamp fetch and the lookup succeed) a ledger without two entries of the same key,
whatever the rate and the timestamp; hence every ledger reached from the empty ledger
holds at most one flow per key. -/
theorem updateFlows_unique_keys (H : Helpers) (state : State) (event : FlowUpdated)
    (cfaContract : CFAContract) (ts : Int) (idx : Option Nat)
    (hmatch : MatchesKey H) (hempty : RejectsEmpty H)
    (hts : cfaContract.getFlow event.token event.sender event.receiver = .ok ts)
    (hidx : findIndex (fun flow => H.isFlowEqual flow event) state.flows = .ok idx)
    (huniq : UniqueKeys state.flows) :
    (∃ flows', (updateFlows H state event cfaContract).result = .ok flows' ∧
      UniqueKeys flows') ∧
    (∀ (steps : List (FlowUpdated × CFAContract)) (reached : List (Option Flow)),
      applyAll H { state with flows := [] } steps = .ok reached → UniqueKeys reached) := by
  constructor
  · obtain ⟨flows', hres⟩ := updateFlows_returns H state event cfaContract ts idx hts hidx
    exact ⟨flows', hres,
      updateFlows_keeps_unique H hmatch hempty state event cfaContract flows' huniq hres⟩
  · intro steps reached h
    exact applyAll_keeps_unique H hmatch hempty steps { state with flows := [] } reached
      uniqueKeys_nil h

theorem uniqueKeys_flowY_flowA : UniqueKeys [some flowY, some flowA] := by
  intro i j f g hf hg h
  rcases i with _ | _ | i <;> rcases j with _ | _ | j <;> simp at hf hg
  all_goals first
    | rfl
    | (subst hf; subst hg; simp [Flow.key, flowY, flowA] at h)

/-- A change of rate on a ledger of two flows, and the ledger reached from the empty one
by a creation and a change of rate. -/
theorem updateFlows_unique_keys_witness :
    (∃ flows',
      (updateFlows specHelpers (ledgerState [some flowY, some flowA])
        (outgoingEvent (some 150)) (cfaAt 1100)).result = .ok flows' ∧
      UniqueKeys flows') ∧
    UniqueKeys [some { flowB with accumulatedAmount := 15000 }] := by
  obtain ⟨h1, h2⟩ := updateFlows_unique_keys specHelpers (ledgerState [some flowY, some flowA])
    (outgoingEvent (some 150)) (cfaAt 1100) 1100 (some 1) matchesKey_specHelpers
    rejectsEmpty_specHelpers rfl rfl uniqueKeys_flowY_flowA
  exact ⟨h1, h2 [(outgoingEvent (some 100), cfaAt 1000), (outgoingEvent (some 150), cfaAt 1100)]
    _ rfl⟩

/-! ## The derived view -/

/-- C15: the items of `useSuperTokenItems` are, one for one and in the order of the
input, the tokens of the input whose live amount
`calculateCurrentAmount(balance, netFlow, lastUpdateDate)` is above 0: the kept tokens
are a sublist of the input, a token is kept exactly when it is in the input with a live
amount above 0, and each item carries the fields of its token. -/
theorem useSuperTokenItems_filters_in_order (V : ViewHelpers) (network : Option Network)
    (useConvertRates : List String → List String → Option String → ConvertRates)
    (now : Int) (superTokens : List ViewToken) :
    (useSuperTokenItems V network useConvertRates now superTokens).map
        (fun item => (item.address, item.amount, item.netFlow, item.lastUpdateDate,
          item.decimals, item.name, item.symbol))
      = (superTokens.filter (fun t => decide (0 < liveAmount V now t))).map
        (fun t => (t.address, t.balance, t.netFlow, t.lastUpdateDate, t.decimals, t.name,
          t.symbol)) ∧
    (superTokens.filter (fun t => decide (0 < liveAmount V now t))).Sublist superTokens ∧
    (∀ t, t ∈ superTokens.filter (fun t => decide (0 < liveAmount V now t)) ↔
      t ∈ superTokens ∧ 0 < liveAmount V now t) ∧
    (∀ t ∈ superTokens, liveAmount V now t ≤ 0 →
      t ∉ superTokens.filter (fun t => decide (0 < liveAmount V now t))) := by
  refine ⟨?_, List.filter_sublist _, ?_, ?_⟩
  · simp [useSuperTokenItems, liveAmount, List.map_map, Function.comp_def]
  · intro t
    simp [List.mem_filter]
  · intro t _ hle hmem
    have := (List.mem_filter.mp hmem).2
    simp only [decide_eq_true_eq] at this
    omega

/-- Scenario D: the token is kept at the time 1050, where its live amount is 500, and
dropped at the time 1200; the token next to it is kept at both times. -/
theorem useSuperTokenItems_filters_in_order_witness :
    (useSuperTokenItems specView none ratesNone 1050 [tokenD, tokenE]).map
        (fun item => item.address) = ["T", "V"] ∧
    liveAmount specView 1050 tokenD = 500 ∧
    (useSuperTokenItems specView none ratesNone 1200 [tokenD, tokenE]).map
        (fun item => item.address) = ["V"] := by
  refine ⟨?_, rfl, ?_⟩
  · have h := (useSuperTokenItems_filters_in_order specView none ratesNone 1050
      [tokenD, tokenE]).1
    have := congrArg (List.map (fun p : Address × Int × Int × Int × Int × String × String =>
      p.1)) h
    simpa [List.map_map, Function.comp_def] using this
  · rfl

/-- C16 (amended): for every token `useSuperTokenItems` keeps, `convertedAmount` and
`convertedNetFlow` are undefined exactly when the rate table has no rate for the
price-lookup key of the token in the default currency or has the rate 0 (the code tests
the truthiness of the rate); when the rate is present and not 0, `convertedAmount` is
`getConvertedAmount(balance, rate)` and `convertedNetFlow` is
`getConvertedAmount(netFlow, rate)`. -/
theorem useSuperTokenItems_converted (V : ViewHelpers) (network : Option Network)
    (useConvertRates : List String → List String → Option String → ConvertRates)
    (now : Int) (superTokens : List ViewToken) :
    List.Forall₂
      (fun item t =>
        (item.convertedAmount = none ↔
          rateIn V network useConvertRates superTokens t = none ∨
          rateIn V network useConvertRates superTokens t = some 0) ∧
        (item.convertedNetFlow = none ↔
          rateIn V network useConvertRates superTokens t = none ∨
          rateIn V network useConvertRates superTokens t = some 0) ∧
        (∀ rate, rateIn V network useConvertRates superTokens t = some rate → rate ≠ 0 →
          item.convertedAmount = some (V.getConvertedAmount t.balance rate) ∧
          item.convertedNetFlow = some (V.getConvertedAmount t.netFlow rate)))
      (useSuperTokenItems V network useConvertRates now superTokens)
      (superTokens.filter (fun t => decide (0 < liveAmount V now t))) := by
  simp only [useSuperTokenItems, liveAmount]
  rw [List.forall₂_map_left_iff, List.forall₂_same]
  intro t _
  show (_ ↔ rateIn V network useConvertRates superTokens t = none ∨ _) ∧ _
  cases hr : rateIn V network useConvertRates superTokens t with
  | none =>
    have hr' := hr
    simp only [rateIn] at hr'
    simp [hr', truthy]
  | some rate =>
    have hr' := hr
    simp only [rateIn] at hr'
    by_cases hz : rate = 0
    · subst hz
      simp [hr', truthy]
    · simp [hr', truthy, hz]

/-- A token with the rate 2: its converted amount is twice its balance. -/
theorem useSuperTokenItems_converted_witness :
    ∃ item, useSuperTokenItems specView none ratesZeroT 1050 [tokenE] = [item] ∧
      item.convertedAmount = some 140 ∧ item.convertedNetFlow = some 6 := by
  have h := useSuperTokenItems_converted specView none ratesZeroT 1050 [tokenE]
  have hkept : [tokenE].filter (fun t => decide (0 < liveAmount specView 1050 t))
      = [tokenE] := rfl
  rw [hkept] at h
  cases hitems : useSuperTokenItems specView none ratesZeroT 1050 [tokenE] with
  | nil =>
    rw [hitems] at h
    cases h
  | cons item rest =>
    rw [hitems] at h
    cases h with
    | cons hhead htail =>
      cases htail
      obtain ⟨_, _, hrate⟩ := hhead
      have hr : rateIn specView none ratesZeroT [tokenE] tokenE = some 2 := rfl
      obtain ⟨h1, h2⟩ := hrate 2 hr (by norm_num)
      refine ⟨item, rfl, ?_, ?_⟩
      · rw [h1]
        simp [specView, tokenE]
        norm_num
      · rw [h2]
        simp [specView, tokenE]
        norm_num

/-- C16 (as stated) fails: the price source has the rate 0 for the token of Scenario D,
kept at the time 1050, and its item has no converted amount and no converted net flow,
where the claim says they are `getConvertedAmount(balance, 0)` and
`getConvertedAmount(netFlow, 0)`. -/
theorem useSuperTokenItems_converted_counterexample :
    rateIn specView none ratesZeroT [tokenD] tokenD = some 0 ∧
    useSuperTokenItems specView none ratesZeroT 1050 [tokenD] = [itemD] ∧
    itemD.convertedAmount = none ∧ itemD.convertedNetFlow = none := by
  refine ⟨rfl, ?_, rfl, rfl⟩
  rfl

/-! ## The query of the side panel -/

theorem findIndex_some_before {α : Type} (p : α → Except Error Bool) :
    ∀ (xs : List α) (i : Nat), findIndex p xs = .ok (some i) →
      ∀ (j : Nat) (x : α), j < i → xs[j]? = some x → p x = .ok false := by
  intro xs
  induction xs with
  | nil => intro i h; simp [findIndex] at h
  | cons y ys ih =>
    intro i h j x hj hx
    unfold findIndex at h
    cases hy : p y with
    | error e => simp [hy] at h
    | ok b =>
      cases b with
      | true =>
        simp only [hy, Except.ok.injEq, Option.some.injEq] at h
        omega
      | false =>
        simp only [hy] at h
        cases hr : findIndex p ys with
        | error e => simp [hr] at h
        | ok r =>
          cases r with
          | none => simp [hr] at h
          | some k =>
            simp only [hr, Except.ok.injEq, Option.some.injEq] at h
            subst h
            cases j with
            | zero =>
              simp only [List.getElem?_cons_zero, Option.some.injEq] at hx
              rw [← hx]
              exact hy
            | succ j =>
              simp only [List.getElem?_cons_succ] at hx
              exact ih k hr j x (by omega) hx

theorem findIndex_total {α : Type} (p : α → Except Error Bool) :
    ∀ xs : List α, (∀ x ∈ xs, ∃ b, p x = .ok b) → ∃ idx, findIndex p xs = .ok idx := by
  intro xs
  induction xs with
  | nil => intro _; exact ⟨none, rfl⟩
  | cons y ys ih =>
    intro h
    obtain ⟨b, hb⟩ := h y (List.mem_cons_self _ _)
    obtain ⟨idx, hidx⟩ := ih (fun x hx => h x (List.mem_cons_of_mem _ hx))
    cases b with
    | true => exact ⟨some 0, by simp [findIndex, hb]⟩
    | false =>
      cases idx with
      | none => exact ⟨none, by simp [findIndex, hb, hidx]⟩
      | some k => exact ⟨some (k + 1), by simp [findIndex, hb, hidx]⟩

theorem existingFlowCallback_some (H : Helpers) (outgoingFlowSelected : Bool)
    (recipient connectedAccount tokenAddress : Address) (f : Flow) :
    existingFlowCallback H outgoingFlowSelected recipient connectedAccount tokenAddress (some f)
      = .ok (isActiveMatch H outgoingFlowSelected recipient connectedAccount tokenAddress f) :=
  rfl

theorem isActiveMatch_true (H : Helpers) (outgoingFlowSelected : Bool)
    (recipient connectedAccount tokenAddress : Address) (f : Flow)
    (h : isActiveMatch H outgoingFlowSelected recipient connectedAccount tokenAddress f = true) :
    f.isCancelled ≠ some true ∧ f.isIncoming = !outgoingFlowSelected ∧
    H.addressesEqual f.entity (if outgoingFlowSelected then recipient else connectedAccount)
      = true ∧
    H.addressesEqual f.superTokenAddress tokenAddress = true := by
  simp only [isActiveMatch, Bool.and_eq_true, Bool.not_eq_true'] at h
  obtain ⟨⟨⟨h1, h2⟩, h3⟩, h4⟩ := h
  refine ⟨?_, ?_, h3, h4⟩
  · intro hc
    rw [hc] at h1
    simp at h1
  · cases outgoingFlowSelected <;> simp at h2 ⊢ <;> exact h2

/-- C17: on a ledger of present entries the `existingFlow` query returns; what it returns
is nothing or the first entry that is not cancelled, has the direction selected (incoming
exactly when the outgoing type is not selected), the counterparty as entity (the recipient
for an outgoing flow, the connected account for an incoming one) and the token selected;
it returns nothing exactly when the operation is a preset update, the recipient or the
token address is not a valid address, or no entry passes that test; a cancelled flow is
never returned. -/
theorem existingFlow_active_query (H : Helpers) (V : ViewHelpers)
    (flows : List (Option Flow)) (isFlowUpdateOperation outgoingFlowSelected : Bool)
    (recipient connectedAccount : Address) (selectedTokenAddress : Option Address)
    (hpresent : ∀ slot ∈ flows, slot ≠ none) :
    ∃ r, existingFlow H V flows isFlowUpdateOperation outgoingFlowSelected recipient
        connectedAccount selectedTokenAddress = .ok r ∧
      (∀ f, r = some f →
        ∃ (tokenAddress : Address) (i : Nat),
          selectedTokenAddress = some tokenAddress ∧ isFlowUpdateOperation = false ∧
          V.isAddress recipient = true ∧ V.isAddress tokenAddress = true ∧
          flows[i]? = some (some f) ∧
          f.isCancelled ≠ some true ∧ f.isIncoming = !outgoingFlowSelected ∧
          H.addressesEqual f.entity
            (if outgoingFlowSelected then recipient else connectedAccount) = true ∧
          H.addressesEqual f.superTokenAddress tokenAddress = true ∧
          ∀ (j : Nat) (g : Flow), j < i → flows[j]? = some (some g) →
            isActiveMatch H outgoingFlowSelected recipient connectedAccount tokenAddress g
              = false) ∧
      (r = none ↔
        isFlowUpdateOperation = true ∨ V.isAddress recipient = false ∨
        (∀ a, selectedTokenAddress = some a → V.isAddress a = false) ∨
        ∃ a, selectedTokenAddress = some a ∧ ∀ g, some g ∈ flows →
          isActiveMatch H outgoingFlowSelected recipient connectedAccount a g = false) := by
  cases selectedTokenAddress with
  | none =>
    refine ⟨none, rfl, ?_, ?_⟩
    · intro f hf
      cases hf
    · simp
  | some a =>
    by_cases hcond : (isFlowUpdateOperation || !V.isAddress recipient || !V.isAddress a) = true
    · refine ⟨none, by simp [existingFlow, hcond], ?_, ?_⟩
      · intro f hf
        cases hf
      · simp only [true_iff]
        simp only [Bool.or_eq_true, Bool.not_eq_true'] at hcond
        rcases hcond with (h | h) | h
        · exact Or.inl h
        · exact Or.inr (Or.inl h)
        · refine Or.inr (Or.inr (Or.inl ?_))
          intro a' ha'
          cases ha'
          exact h
    · simp only [Bool.or_eq_true, Bool.not_eq_true', not_or, Bool.not_eq_true,
        Bool.not_eq_false] at hcond
      obtain ⟨⟨hupd, hrec⟩, htok⟩ := hcond
      have hcond' : (isFlowUpdateOperation || !V.isAddress recipient || !V.isAddress a)
          = false := by simp [hupd, hrec, htok]
      have htotal : ∀ x ∈ flows, ∃ b,
          existingFlowCallback H outgoingFlowSelected recipient connectedAccount a x
            = .ok b := by
        intro x hx
        cases x with
        | none => exact absurd rfl (hpresent none hx)
        | some f => exact ⟨_, rfl⟩
      obtain ⟨idx, hidx⟩ := findIndex_total _ flows htotal
      cases idx with
      | none =>
        have hall := findIndex_none_all _ _ hidx
        refine ⟨none, by simp [existingFlow, hcond', hidx, slotAt], ?_, ?_⟩
        · intro f hf
          cases hf
        · simp only [true_iff]
          refine Or.inr (Or.inr (Or.inr ⟨a, rfl, ?_⟩))
          intro g hg
          have := hall (some g) hg
          rw [existingFlowCallback_some] at this
          simpa using this
      | some i =>
        obtain ⟨x, hx, hpx⟩ := findIndex_some_get _ _ _ hidx
        cases x with
        | none => simp [existingFlowCallback] at hpx
        | some f =>
          rw [existingFlowCallback_some] at hpx
          simp only [Except.ok.injEq] at hpx
          obtain ⟨h1, h2, h3, h4⟩ := isActiveMatch_true H _ _ _ _ f hpx
          refine ⟨some f, by simp [existingFlow, hcond', hidx, slotAt, hx], ?_, ?_⟩
          · intro f' hf'
            cases hf'
            refine ⟨a, i, rfl, hupd, hrec, htok, hx, h1, h2, h3, h4, ?_⟩
            intro j g hj hg
            have := findIndex_some_before _ _ _ hidx j (some g) hj hg
            rw [existingFlowCallback_some] at this
            simpa using this
          · constructor
            · intro h
              cases h
            · rintro (h | h | h | ⟨a', ha', h⟩)
              · rw [hupd] at h
                cases h
              · rw [hrec] at h
                cases h
              · have := h a rfl
                rw [htok] at this
                cases this
              · cases ha'
                have := h f (List.getElem?_mem hx)
                rw [hpx] at this
                cases this

/-- On a ledger that holds a cancelled flow and then an active flow to the same
recipient in the same token, the query returns the active one. -/
theorem existingFlow_active_query_witness :
    existingFlow specHelpers specView [some flowCancelled, some flowActive] false true
      addressX "me" (some addressT) = .ok (some flowActive) := by
  obtain ⟨r, hr, _, _⟩ := existingFlow_active_query specHelpers specView
    [some flowCancelled, some flowActive] false true addressX "me" (some addressT)
    (by
      intro slot hs
      simp only [List.mem_cons, List.mem_singleton, List.not_mem_nil, or_false] at hs
      rcases hs with rfl | rfl <;> simp)
  have h : existingFlow specHelpers specView [some flowCancelled, some flowActive] false true
      addressX "me" (some addressT) = .ok (some flowActive) := rfl
  rw [h] at hr ⊢

/-! ## The validation of the side panel -/

/-- C19: for a numeric flow rate `r`, `validateFields` returns no error exactly when the
recipient is a valid address, the flow is not an outgoing flow to the agent, `r > 0`,
and the balance (the live amount of the super token, or the user balance of a custom
token) scaled by the decimals is not less than the required deposit; and the error is
the one of the first of these tests that fails. -/
theorem validateFields_accepts_iff (H : Helpers) (V : ViewHelpers) (now : Int)
    (superToken : TokenArg) (recipient : String) (r : Rat) (agentAddress : Address)
    (requiredDeposit : Option Rat) (isOutgoingFlow : Bool) :
    (validateFields H V now superToken recipient (some r) agentAddress requiredDeposit
        isOutgoingFlow = none ↔
      V.isAddress recipient = true ∧
      ¬ (isOutgoingFlow = true ∧ H.addressesEqual recipient agentAddress = true) ∧
      0 < r ∧
      ¬ (V.fromDecimals (balanceOfArg V now superToken).1 (balanceOfArg V now superToken).2.1
          < requiredDeposit.getD 0)) ∧
    (V.isAddress recipient = false →
      validateFields H V now superToken recipient (some r) agentAddress requiredDeposit
        isOutgoingFlow = some .invalidRecipient) ∧
    (V.isAddress recipient = true → isOutgoingFlow = true →
      H.addressesEqual recipient agentAddress = true →
      validateFields H V now superToken recipient (some r) agentAddress requiredDeposit
        isOutgoingFlow = some .flowToAgent) ∧
    (V.isAddress recipient = true →
      ¬ (isOutgoingFlow = true ∧ H.addressesEqual recipient agentAddress = true) →
      r ≤ 0 →
      validateFields H V now superToken recipient (some r) agentAddress requiredDeposit
        isOutgoingFlow = some .nonPositiveRate) ∧
    (V.isAddress recipient = true →
      ¬ (isOutgoingFlow = true ∧ H.addressesEqual recipient agentAddress = true) →
      0 < r →
      V.fromDecimals (balanceOfArg V now superToken).1 (balanceOfArg V now superToken).2.1
        < requiredDeposit.getD 0 →
      validateFields H V now superToken recipient (some r) agentAddress requiredDeposit
        isOutgoingFlow = some (.insufficientBalance (balanceOfArg V now superToken).2.2)) ∧
    (∀ t, balanceOfArg V now (.superToken t)
      = (V.calculateCurrentAmount now t.balance t.netFlow t.lastUpdateDate, t.decimals,
          t.symbol)) ∧
    (∀ data, balanceOfArg V now (.custom data)
      = (data.userBalance, data.decimals, data.symbol)) := by
  have e1 : V.isAddress recipient = false →
      validateFields H V now superToken recipient (some r) agentAddress requiredDeposit
        isOutgoingFlow = some .invalidRecipient := by
    intro h
    simp [validateFields, h]
  have e2 : V.isAddress recipient = true → isOutgoingFlow = true →
      H.addressesEqual recipient agentAddress = true →
      validateFields H V now superToken recipient (some r) agentAddress requiredDeposit
        isOutgoingFlow = some .flowToAgent := by
    intro h1 h2 h3
    simp [validateFields, h1, h2, h3]
  have hagent : ¬ (isOutgoingFlow = true ∧ H.addressesEqual recipient agentAddress = true) →
      (isOutgoingFlow && H.addressesEqual recipient agentAddress) = false := by
    intro h
    cases h1 : isOutgoingFlow <;> cases h2 : H.addressesEqual recipient agentAddress <;>
      simp_all
  have e3 : V.isAddress recipient = true →
      ¬ (isOutgoingFlow = true ∧ H.addressesEqual recipient agentAddress = true) →
      r ≤ 0 →
      validateFields H V now superToken recipient (some r) agentAddress requiredDeposit
        isOutgoingFlow = some .nonPositiveRate := by
    intro h1 h2 h3
    simp [validateFields, h1, hagent h2, numberLeZero, h3]
  have e4 : V.isAddress recipient = true →
      ¬ (isOutgoingFlow = true ∧ H.addressesEqual recipient agentAddress = true) →
      0 < r →
      V.fromDecimals (balanceOfArg V now superToken).1 (balanceOfArg V now superToken).2.1
        < requiredDeposit.getD 0 →
      validateFields H V now superToken recipient (some r) agentAddress requiredDeposit
        isOutgoingFlow = some (.insufficientBalance (balanceOfArg V now superToken).2.2) := by
    intro h1 h2 h3 h4
    simp [validateFields, h1, hagent h2, numberLeZero, not_le.mpr h3, h4]
  refine ⟨?_, e1, e2, e3, e4, fun _ => rfl, fun _ => rfl⟩
  constructor
  · intro hnone
    cases h1 : V.isAddress recipient with
    | false =>
      rw [e1 h1] at hnone
      cases hnone
    | true =>
      by_cases h2 : isOutgoingFlow = true ∧ H.addressesEqual recipient agentAddress = true
      · rw [e2 h1 h2.1 h2.2] at hnone
        cases hnone
      · by_cases h3 : r ≤ 0
        · rw [e3 h1 h2 h3] at hnone
          cases hnone
        · have h3' : 0 < r := not_le.mp h3
          by_cases h4 : V.fromDecimals (balanceOfArg V now superToken).1
              (balanceOfArg V now superToken).2.1 < requiredDeposit.getD 0
          · rw [e4 h1 h2 h3' h4] at hnone
            cases hnone
          · exact ⟨rfl, h2, h3', h4⟩
  · rintro ⟨h1, h2, h3, h4⟩
    simp [validateFields, h1, hagent h2, numberLeZero, not_le.mpr h3, h4]

/-- An outgoing flow of rate 1 to a valid recipient in a custom token of balance 50
against a deposit of 20 is accepted; with a deposit of 60 the balance is insufficient;
with the rate 0 the rate is refused; an invalid recipient is refused first. -/
theorem validateFields_accepts_iff_witness :
    validateFields specHelpers specView 1050 customToken addressX (some 1) "agent" (some 20)
      true = none ∧
    validateFields specHelpers specView 1050 customToken addressX (some 1) "agent" (some 60)
      true = some (.insufficientBalance "CT") ∧
    validateFields specHelpers specView 1050 customToken addressX (some 0) "agent" (some 60)
      true = some .nonPositiveRate ∧
    validateFields specHelpers specView 1050 customToken "X" (some 0) "agent" (some 60)
      true = some .invalidRecipient := by
  have hagent : ¬ ((true : Bool) = true ∧ specHelpers.addressesEqual addressX "agent" = true) := by
    intro h
    have : specHelpers.addressesEqual addressX "agent" = false := by decide
    rw [this] at h
    cases h.2
  have hbal : specView.fromDecimals (balanceOfArg specView 1050 customToken).1
      (balanceOfArg specView 1050 customToken).2.1 = 50 := by
    simp [specView, balanceOfArg, customToken]
    norm_num
  refine ⟨?_, ?_, ?_, ?_⟩
  · refine (validateFields_accepts_iff specHelpers specView 1050 customToken addressX 1 "agent"
      (some 20) true).1.mpr ⟨rfl, hagent, by norm_num, ?_⟩
    rw [hbal]
    norm_num
  · refine (validateFields_accepts_iff specHelpers specView 1050 customToken addressX 1 "agent"
      (some 60) true).2.2.2.2.1 rfl hagent (by norm_num) ?_
    rw [hbal]
    norm_num
  · exact (validateFields_accepts_iff specHelpers specView 1050 customToken addressX 0 "agent"
      (some 60) true).2.2.2.1 rfl hagent (by norm_num)
  · exact (validateFields_accepts_iff specHelpers specView 1050 customToken "X" 0 "agent"
      (some 60) true).2.1 rfl

/-! ## Empty slots in a reachable ledger -/

/-- C20 (the code at the failing input): the creation of a flow followed by its
cancellation leads from the empty ledger to a ledger of length 1 whose slot 0 holds no
flow record; on that ledger the next lookup of `updateFlows` throws with the helper of
the specification, and the `existingFlow` query of the side panel, which reads
`f.isCancelled` of every slot, throws. -/
theorem reachable_ledger_has_empty_slot :
    applyAll specHelpers (ledgerState [])
      [(outgoingEvent (some 100), cfaAt 1000), (outgoingEvent (some 0), cfaAt 1300)]
      = .ok [none] ∧
    (updateFlows specHelpers (ledgerState [none]) (outgoingEvent (some 100))
      (cfaAt 1400)).result = .error .typeError ∧
    existingFlow specHelpers specView [none] false true addressX "me" (some addressT)
      = .error .typeError := by
  refine ⟨rfl, rfl, rfl⟩

end FlowFinance
